import Mathlib

/-!
A shallow embedding of the network request/response tracking layer of the
repository (class TrackingHttp in src/trackingNetwork/trackingHttp.js,
together with the reduced TrackingHttp variant whose waitForResponse
filters driver responses directly).

JavaScript values occurring in match decisions are embedded as JSValue
with explicit truthiness; JS Maps become association lists with
update-in-place key semantics; the asynchronous waiter machinery
(waitForRequest entries, their setTimeout timers and their promise
settlements) becomes an explicit step function on a tracker state that
carries two ghost fields: `timers` (which JS timeout timers are still
armed) and `settled` (which waiter promises have settled, and how).
Host primitives without Lean counterparts (RegExp.test, JSON.parse) are
abstracted as function parameters.
-/

namespace TrackingHttp

/-- JS runtime values, as far as the truthiness decisions of the tracker
are concerned. -/
inductive JSValue where
  | bool (b : Bool)
  | num (n : Int)
  | str (s : String)
  | null
  | undef
  | obj
deriving DecidableEq, Repr

/-- JS truthiness, i.e. what stands behind `if (v)`: false, 0, the empty
string, null and undefined are falsy; objects are truthy. -/
def truthy : JSValue → Bool
  | .bool b => b
  | .num n => n != 0
  | .str s => s != ""
  | .null => false
  | .undef => false
  | .obj => true

/-- Substring search on character lists: does `pat` occur contiguously? -/
def hasSub (pat : List Char) : List Char → Bool
  | [] => pat.isEmpty
  | c :: rest => pat.isPrefixOf (c :: rest) || hasSub pat rest

/-- JS `s.includes(pat)`: substring containment. -/
def strContains (s pat : String) : Bool := hasSub pat.data s.data

/-- A JS RegExp, abstracted by its source text and its `test` method. -/
structure JsRegex where
  src : String
  test : String → Bool

/-- The matcher union accepted everywhere in the tracker:
string | RegExp | predicate function. -/
inductive Matcher where
  | mstr (s : String)
  | mregex (r : JsRegex)
  | mpred (f : String → JSValue)

/-- `_matchUrl(url, matcher)`: the raw value returned by the matcher
engine.  For a string, substring containment; for a RegExp, its test;
for a function, the function's return value is passed through as is. -/
def matchUrlVal (url : String) : Matcher → JSValue
  | .mstr s => .bool (strContains url s)
  | .mregex r => .bool (r.test url)
  | .mpred f => f url

/-- Every call site of `_matchUrl` uses its result in boolean position
(`if (this._matchUrl(url, matcher))`), so the effective match decision
is the truthiness of the returned value. -/
def matchesUrl (url : String) (m : Matcher) : Bool := truthy (matchUrlVal url m)

/-- How the matcher prints inside the template literal of the timeout
message: a string matcher interpolates as itself, a RegExp as /src/, a
function by its source text (abstracted here as "function"). -/
def describeMatcher : Matcher → String
  | .mstr s => s
  | .mregex r => "/" ++ r.src ++ "/"
  | .mpred _ => "function"

def timeoutMessageReq (m : Matcher) : String :=
  "Timeout waiting for request: " ++ describeMatcher m

def timeoutMessageResp (m : Matcher) : String :=
  "Timeout waiting for response: " ++ describeMatcher m

/-- The URL part of the filter used by `waitForResponse` in the reduced
TrackingHttp variant: a predicate excludes the candidate only when it
returns the boolean false; any non-boolean return falls through. -/
def p04UrlOk (m : Matcher) (url : String) : Bool :=
  match m with
  | .mstr s => strContains url s
  | .mregex r => r.test url
  | .mpred f =>
    match f url with
    | .bool b => b
    | _ => true

/-- The full filter of the reduced variant's `waitForResponse`,
including the optional case-insensitive method filter. -/
def p04Match (m : Matcher) (methodFilter : Option String) (url method : String) : Bool :=
  p04UrlOk m url &&
    (match methodFilter with
     | none => true
     | some mf => method.toUpper == mf)

/-! ## Stores: JS `Map` objects keyed by URL -/

abbrev Store (α : Type) := List (String × α)

/-- `Map.set`: replace the value in place when the key exists, else
append a new entry (JS Maps iterate in insertion order). -/
def mapSet {α : Type} : Store α → String → α → Store α
  | [], k, v => [(k, v)]
  | (u, d) :: rest, k, v =>
    if u = k then (k, v) :: rest else (u, d) :: mapSet rest k v

/-- `Map.get`: first (and, under key uniqueness, only) entry. -/
def mapGet {α : Type} : Store α → String → Option α
  | [], _ => none
  | (u, d) :: rest, k => if u = k then some d else mapGet rest k

/-- `findRequest` / `findResponse`: iterate entries in order, return the
first whose URL satisfies the matcher. -/
def findFirst {α : Type} (m : Matcher) : Store α → Option α
  | [] => none
  | (u, d) :: rest => if matchesUrl u m then some d else findFirst m rest

/-- `findAllRequests` / `findAllResponses`. -/
def findAllIn {α : Type} (m : Matcher) (st : Store α) : List α :=
  (st.filter fun p => matchesUrl p.1 m).map Prod.snd

/-! ## Configuration and records -/

/-- The recognized configuration options with their constructor
defaults. -/
structure Config where
  debug : Bool
  timeout : Nat
  captureBody : Bool
  captureHeaders : Bool
  maxBodySize : Nat
deriving DecidableEq, Repr

/-- `{debug: false, timeout: 30000, captureBody: true,
captureHeaders: true, maxBodySize: 10 * 1024 * 1024}`. -/
def defaultConfig : Config :=
  { debug := false, timeout := 30000, captureBody := true,
    captureHeaders := true, maxBodySize := 10485760 }

abbrev Headers := List (String × String)

/-- JS object property access with the `|| ''` fallback used for the
content type header. -/
def headerGet (hs : Headers) (k : String) : String := ((hs.lookup k).getD "")

/-- What the driver exposes on a request object. -/
structure DriverRequest where
  url : String
  method : String
  headers : Headers
  postData : Option String
  resourceType : String
  isNavigationRequest : Bool
deriving DecidableEq, Repr

/-- The requestData object stored by `_handleRequest`. -/
structure RequestRecord where
  url : String
  method : String
  headers : Option Headers
  postData : Option String
  resourceType : String
  timestamp : Nat
  isNavigationRequest : Bool
deriving DecidableEq, Repr

def buildRequestRecord (cfg : Config) (r : DriverRequest) (now : Nat) : RequestRecord :=
  { url := r.url
    method := r.method
    headers := if cfg.captureHeaders = true then some r.headers else none
    postData := if cfg.captureBody = true then r.postData else none
    resourceType := r.resourceType
    timestamp := now
    isNavigationRequest := r.isNavigationRequest }

/-- A response body buffer, abstracted by its byte length and by the
results of the two host conversions applied to it. -/
structure RawBuffer where
  len : Nat
  utf8 : String
  b64 : String
deriving DecidableEq, Repr

/-- What the driver exposes on a response object. -/
structure DriverResponse where
  url : String
  status : Nat
  statusText : String
  headers : Headers
  ok : Bool
  fromCache : Bool
  fromServiceWorker : Bool
  buffer : RawBuffer
deriving DecidableEq, Repr

/-- The stored body representation: decoded JSON (kept by its source
text, the host parse being abstract), UTF-8 text, a base64 rendering,
null, or an arbitrary value installed by a response handler through
`modifyBody`. -/
inductive BodyVal where
  | nullB
  | jsonB (src : String)
  | textB (s : String)
  | b64B (s : String)
  | otherB (v : JSValue)
deriving DecidableEq, Repr

/-- The content-type decision table of `_handleResponse`; `jsonOk`
abstracts whether the host JSON.parse succeeds on the text. -/
def decodeBody (jsonOk : String → Bool) (contentType : String) (buf : RawBuffer) : BodyVal :=
  if strContains contentType "application/json" then
    if jsonOk buf.utf8 then .jsonB buf.utf8 else .textB buf.utf8
  else if strContains contentType "text/" then .textB buf.utf8
  else .b64B buf.b64

/-- `_handleResponse` body capture: body stays null unless capture is on
and the buffer does not exceed `maxBodySize`. -/
def captureResponseBody (jsonOk : String → Bool) (cfg : Config) (r : DriverResponse) : BodyVal :=
  if cfg.captureBody = true ∧ r.buffer.len ≤ cfg.maxBodySize then
    decodeBody jsonOk (headerGet r.headers "content-type") r.buffer
  else .nullB

/-- The responseData object stored by `_handleResponse`. -/
structure ResponseRecord where
  url : String
  status : Nat
  statusText : String
  headers : Option Headers
  body : BodyVal
  ok : Bool
  fromCache : Bool
  fromServiceWorker : Bool
  timestamp : Nat
  request : Option RequestRecord
deriving DecidableEq, Repr

def buildResponseRecord (jsonOk : String → Bool) (cfg : Config) (r : DriverResponse)
    (now : Nat) (reqs : Store RequestRecord) : ResponseRecord :=
  { url := r.url
    status := r.status
    statusText := r.statusText
    headers := if cfg.captureHeaders = true then some r.headers else none
    body := captureResponseBody jsonOk cfg r
    ok := r.ok
    fromCache := r.fromCache
    fromServiceWorker := r.fromServiceWorker
    timestamp := now
    request := mapGet reqs r.url }

/-! ## Interception handlers and the request pipeline

A registered handler is an arbitrary JS function; what the pipeline can
observe of one invocation is (a) the sequence of calls it makes to the
helpers capability object, each of which mutates the pipeline's shared
`shouldContinue` / `overrides` locals, and (b) its returned value or the
fact that it threw.  Both are recorded in the handler's embedding. -/

/-- A continuation-override object; values are opaque payloads. -/
abbrev Overrides := List (String × String)

/-- JS object spread access: the last assignment of a key wins. -/
def ovGet (o : Overrides) (k : String) : Option String := o.reverse.lookup k

/-- One call a request handler makes to the helpers object:
`helpers.abort(code)`, `helpers.continue(opts)` or
`helpers.respond(resp)`. -/
inductive HelperCall where
  | abortH (code : String)
  | contH (opts : Overrides)
  | respondH (resp : JSValue)
deriving Repr

/-- The value read off a returned result's `continue` field.  The
helpers object puts the boolean true there; a handler returning its own
object may put an overrides object (spread into the accumulator) or
anything falsy. -/
inductive ContV where
  | boolV (b : Bool)
  | objV (o : Overrides)
  | undefV
deriving Repr

def contTruthy : ContV → Bool
  | .boolV b => b
  | .objV _ => true
  | .undefV => false

def contSpread : ContV → Overrides
  | .objV o => o
  | _ => []

/-- A handler's returned value as the pipeline reads it: either not an
object (so every field access yields undefined — this also covers falsy
returns), or an object with its `abort`, `respond` and `continue`
fields. -/
inductive HResult where
  | nonObj
  | objR (abortV : JSValue) (respondV : JSValue) (contV : ContV)
deriving Repr

inductive HandlerOutcome where
  | throws
  | returns (r : HResult)
deriving Repr

/-- The two registered handler shapes, tagged by the `type` field of the
interceptHandlers entry.  A response handler's observable behaviour is
the sequence of `modifyBody` calls it makes and whether it throws. -/
inductive HBehavior where
  | reqB (calls : List HelperCall) (outcome : HandlerOutcome)
  | respB (bodyCalls : List BodyVal) (throwsAfter : Bool)
deriving Repr

structure Handler where
  matcher : Matcher
  behavior : HBehavior

def isReqBehavior : HBehavior → Bool
  | .reqB _ _ => true
  | .respB _ _ => false

/-- The effect of one helpers call on the `(shouldContinue, overrides)`
pair of `_handleRequest`. -/
def applyCall (st : Bool × Overrides) : HelperCall → Bool × Overrides
  | .abortH _ => (false, st.2)
  | .contH o => (st.1, st.2 ++ o)
  | .respondH _ => (false, st.2)

def applyCalls (st : Bool × Overrides) (cs : List HelperCall) : Bool × Overrides :=
  cs.foldl applyCall st

/-- The final action `_handleRequest` takes on the driver request. -/
inductive Disposition where
  | aborted (code : JSValue)
  | responded (v : JSValue)
  | continued (o : Overrides)
  | noAction
deriving DecidableEq, Repr

/-- What one pipeline run produces: the driver action, the ids of the
handlers that were invoked, and the ids whose errors were caught and
logged. -/
structure PipeOut where
  disp : Disposition
  invoked : List Nat
  errs : List Nat
deriving DecidableEq, Repr

/-- The interception loop of `_handleRequest`, carrying the
`shouldContinue` and `overrides` locals: skip handlers of the response
type and non-matching handlers; run a matching handler's helper calls;
on a thrown error log it and move on; on a returned object apply
`abort`, `respond` (both return immediately) or merge `continue`. -/
def runReqAux (url : String) : List (Nat × Handler) → Bool → Overrides → PipeOut
  | [], sc, ov => { disp := if sc then .continued ov else .noAction, invoked := [], errs := [] }
  | (i, h) :: rest, sc, ov =>
    match h.behavior with
    | .respB _ _ => runReqAux url rest sc ov
    | .reqB calls outcome =>
      if matchesUrl url h.matcher then
        let p := applyCalls (sc, ov) calls
        match outcome with
        | .throws =>
          let o := runReqAux url rest p.1 p.2
          { disp := o.disp, invoked := i :: o.invoked, errs := i :: o.errs }
        | .returns .nonObj =>
          let o := runReqAux url rest p.1 p.2
          { disp := o.disp, invoked := i :: o.invoked, errs := o.errs }
        | .returns (.objR a rv c) =>
          if truthy a then { disp := .aborted a, invoked := [i], errs := [] }
          else if truthy rv then { disp := .responded rv, invoked := [i], errs := [] }
          else
            let p2 := if contTruthy c then (p.1, p.2 ++ contSpread c) else p
            let o := runReqAux url rest p2.1 p2.2
            { disp := o.disp, invoked := i :: o.invoked, errs := o.errs }
      else runReqAux url rest sc ov

def runReqPipeline (hs : List (Nat × Handler)) (url : String) : PipeOut :=
  runReqAux url hs true []

/-- What one response pipeline run produces. -/
structure RespOut where
  body : BodyVal
  invoked : List Nat
  errs : List Nat
deriving DecidableEq, Repr

/-- The interception loop of `_handleResponse`: each matching
response-type handler may overwrite the stored body through
`modifyBody` (last call wins); a thrown error is caught and logged and
the loop continues. -/
def runRespAux (url : String) : List (Nat × Handler) → BodyVal → RespOut
  | [], b => { body := b, invoked := [], errs := [] }
  | (i, h) :: rest, b =>
    match h.behavior with
    | .reqB _ _ => runRespAux url rest b
    | .respB calls thr =>
      if matchesUrl url h.matcher then
        let b1 := calls.foldl (fun _ v => v) b
        let o := runRespAux url rest b1
        { body := o.body, invoked := i :: o.invoked,
          errs := if thr then i :: o.errs else o.errs }
      else runRespAux url rest b

/-! ### The pipeline contract as the specification words it

A second set of definitions, written from the specification's
description of the pipeline (first short-circuiting result wins,
otherwise all participating handlers' continuation overrides merge with
later keys winning), to be compared with `runReqPipeline` above. -/

/-- The short-circuit disposition carried by a handler's returned value,
if any. -/
def shortDisp : HandlerOutcome → Option Disposition
  | .returns (.objR a rv _) =>
    if truthy a then some (.aborted a)
    else if truthy rv then some (.responded rv)
    else none
  | _ => none

/-- The continuation overrides one handler contributes: the options of
its `helpers.continue` calls in order, then the spread of a truthy
`continue` field of a returned non-short-circuiting object. -/
def contribOfCalls : List HelperCall → Overrides
  | [] => []
  | .contH o :: rest => o ++ contribOfCalls rest
  | _ :: rest => contribOfCalls rest

def handlerContrib : HBehavior → Overrides
  | .reqB calls outcome =>
    contribOfCalls calls ++
      (match outcome with
       | .returns (.objR a rv c) =>
         if truthy a = false ∧ truthy rv = false ∧ contTruthy c = true then contSpread c else []
       | _ => [])
  | .respB _ _ => []

/-- The specification's pipeline: walk the request-phase handlers whose
matcher accepts the URL in registration order; the first one whose
result short-circuits supplies the disposition and stops the walk;
otherwise the request continues with all contributions merged in
order. -/
def specReqAux (url : String) : List (Nat × Handler) → Overrides → Disposition × List Nat
  | [], acc => (.continued acc, [])
  | (i, h) :: rest, acc =>
    match h.behavior with
    | .respB _ _ => specReqAux url rest acc
    | .reqB _ outcome =>
      if matchesUrl url h.matcher then
        match shortDisp outcome with
        | some d => (d, [i])
        | none =>
          let o := specReqAux url rest (acc ++ handlerContrib h.behavior)
          (o.1, i :: o.2)
      else specReqAux url rest acc

def specReqPipeline (hs : List (Nat × Handler)) (url : String) : Disposition × List Nat :=
  specReqAux url hs []

/-- A handler that only ever calls `helpers.continue`, or whose returned
value short-circuits.  A handler outside this class can flip the shared
`shouldContinue` flag off without returning a short-circuit, leaving
the request with no driver action at all. -/
def disciplined (h : Handler) : Bool :=
  match h.behavior with
  | .respB _ _ => true
  | .reqB calls outcome =>
    (calls.all fun c => match c with | .contH _ => true | _ => false) ||
      (shortDisp outcome).isSome

/-! ## Tracker state and event-step semantics

The class state (`page`, `requests`, `responses`, `interceptHandlers`,
`waitingRequests`, `isEnabled`) plus two ghost fields: `timers` records
which waiter timeout timers are still armed (an entry leaves it when
the waiter's resolve wrapper runs `clearTimeout`, or when the timer
itself fires — note that `clear()` deletes registry entries but cancels
no timer), and `settled` logs every resolve/reject a waiter promise
receives. -/

/-- How a waiter promise settled. -/
inductive Settlement where
  | res (r : RequestRecord)
  | rej (msg : String)
deriving DecidableEq, Repr

structure TrackerState where
  isEnabled : Bool
  hasPage : Bool
  requests : Store RequestRecord
  responses : Store ResponseRecord
  interceptHandlers : List (Nat × Handler)
  waitingRequests : List (Nat × Matcher)
  timers : List (Nat × Matcher)
  settled : List (Nat × Settlement)

/-- The constructor state of the class. -/
def newTracker : TrackerState :=
  { isEnabled := false, hasPage := false, requests := [], responses := [],
    interceptHandlers := [], waitingRequests := [], timers := [], settled := [] }

def enableErrorMsg : String := "TrackingHttp đã được enable"

/-- `enable(page)`: fail when already enabled, before any state change;
otherwise bind the page and turn tracking on. -/
def enable (s : TrackerState) : Option String × TrackerState :=
  if s.isEnabled = true then (some enableErrorMsg, s)
  else (none, { s with isEnabled := true, hasPage := true })

/-- `clear()`: empty both stores and the waiter registry (armed timers
are not cancelled, and the handler table is untouched). -/
def clear (s : TrackerState) : TrackerState :=
  { s with requests := [], responses := [], waitingRequests := [] }

/-- `disable()`: a no-op unless enabled; otherwise detach from the page,
clear captured data and flip the flag. -/
def disable (s : TrackerState) : TrackerState :=
  if s.isEnabled = false then s
  else { clear s with isEnabled := false }

/-- The host parameters every event step depends on: the configuration
fixed at construction and the host JSON parser. -/
structure Env where
  cfg : Config
  jsonOk : String → Bool

/-- One observable interaction with a tracker instance while it is
bound to a page: waiter registration (`waitForRequest`), a waiter
timeout timer firing, a driver `request` or `response` event, `clear`,
and handler registration/disposal (`interceptRequest` /
`interceptResponse` and the disposer they return). -/
inductive Step where
  | addWaiter (id : Nat) (m : Matcher)
  | fireTimeout (id : Nat)
  | reqEvent (r : DriverRequest) (now : Nat)
  | respEvent (r : DriverResponse) (now : Nat)
  | clearStep
  | addHandler (id : Nat) (h : Handler)
  | removeHandler (id : Nat)

def lookupId {α : Type} : List (Nat × α) → Nat → Option α
  | [], _ => none
  | (i, a) :: rest, id => if i = id then some a else lookupId rest id

/-- `_handleRequest`: store the record, notify waiters
(`_checkWaitingRequests` resolves every pending waiter whose matcher
accepts the URL; each resolve wrapper cancels that waiter's timer and
deletes its entry), then run the interception pipeline (which touches
only the driver, not the tracker state). -/
def stepReqEvent (env : Env) (s : TrackerState) (r : DriverRequest) (now : Nat) : TrackerState :=
  let recd := buildRequestRecord env.cfg r now
  let winners := s.waitingRequests.filter fun p => matchesUrl r.url p.2
  let wIds := winners.map Prod.fst
  { s with
    requests := mapSet s.requests r.url recd
    waitingRequests := s.waitingRequests.filter fun p => !(matchesUrl r.url p.2)
    timers := s.timers.filter fun p => !(wIds.contains p.1)
    settled := s.settled ++ winners.map fun p => (p.1, Settlement.res recd) }

/-- `_handleResponse`: build the record (correlating the stored request
for the same URL), store it, then let matching response handlers
rewrite the stored body through `modifyBody`. -/
def stepRespEvent (env : Env) (s : TrackerState) (r : DriverResponse) (now : Nat) : TrackerState :=
  let recd := buildResponseRecord env.jsonOk env.cfg r now s.requests
  let b1 := (runRespAux r.url s.interceptHandlers recd.body).body
  { s with responses := mapSet s.responses r.url { recd with body := b1 } }

/-- The timeout callback of `waitForRequest`: delete the registry entry
and reject with the matcher-carrying message.  The matcher comes from
the callback's closure, recorded here in the timer ghost entry. -/
def stepFireTimeout (s : TrackerState) (id : Nat) : TrackerState :=
  match lookupId s.timers id with
  | none => s
  | some m =>
    { s with
      waitingRequests := s.waitingRequests.filter fun p => !(p.1 == id)
      timers := s.timers.filter fun p => !(p.1 == id)
      settled := s.settled ++ [(id, Settlement.rej (timeoutMessageReq m))] }

def stepF (env : Env) (s : TrackerState) : Step → TrackerState
  | .addWaiter id m =>
    { s with waitingRequests := s.waitingRequests ++ [(id, m)],
             timers := s.timers ++ [(id, m)] }
  | .fireTimeout id => stepFireTimeout s id
  | .reqEvent r now => stepReqEvent env s r now
  | .respEvent r now => stepRespEvent env s r now
  | .clearStep => clear s
  | .addHandler id h => { s with interceptHandlers := s.interceptHandlers ++ [(id, h)] }
  | .removeHandler id =>
    { s with interceptHandlers := s.interceptHandlers.filter fun p => !(p.1 == id) }

def idsOf {α : Type} (l : List (Nat × α)) : List Nat := l.map Prod.fst

/-- When a step can actually occur: waiter ids are fresh (`Date.now() +
Math.random()` keys, collision-free for this model), a timer fires only
while it is armed, and driver events arrive only while the tracker is
listening. -/
def okStep (s : TrackerState) : Step → Bool
  | .addWaiter id _ =>
    !((idsOf s.timers).contains id) && !((idsOf s.waitingRequests).contains id) &&
      !((idsOf s.settled).contains id)
  | .fireTimeout id => (idsOf s.timers).contains id
  | .reqEvent _ _ => s.isEnabled
  | .respEvent _ _ => s.isEnabled
  | .clearStep => true
  | .addHandler id _ => !((idsOf s.interceptHandlers).contains id)
  | .removeHandler _ => true

def okTrace (env : Env) : TrackerState → List Step → Bool
  | _, [] => true
  | s, st :: tr => okStep s st && okTrace env (stepF env s st) tr

def runTrace (env : Env) : TrackerState → List Step → TrackerState
  | s, [] => s
  | s, st :: tr => runTrace env (stepF env s st) tr

/-- The state of a freshly constructed tracker right after `enable`. -/
def startState : TrackerState := (enable newTracker).2

/-- Number of occurrences of an id in an id-keyed list. -/
def countId {α : Type} (l : List (Nat × α)) (id : Nat) : Nat := (idsOf l).count id

/-- The settlements a given waiter received. -/
def settledFor (s : TrackerState) (id : Nat) : List (Nat × Settlement) :=
  s.settled.filter fun p => p.1 == id

/-- Whether a step registers the given waiter id. -/
def addsOfStep (id : Nat) : Step → Nat
  | .addWaiter i _ => if i = id then 1 else 0
  | _ => 0

/-- How many times a trace registers the given waiter id. -/
def countAdds (tr : List Step) (id : Nat) : Nat :=
  (tr.map (addsOfStep id)).sum

def findRequest (s : TrackerState) (m : Matcher) : Option RequestRecord :=
  findFirst m s.requests

def findResponse (s : TrackerState) (m : Matcher) : Option ResponseRecord :=
  findFirst m s.responses

/-- `waitForResponse` of the tracking layer: poll `findResponse` every
100 ms until a record matches or the deadline passes.  The successive
states the polls observe are abstracted as a list; an empty remainder
means the deadline passed first. -/
def waitForResponseRun (m : Matcher) : List TrackerState → Except String ResponseRecord
  | [] => .error (timeoutMessageResp m)
  | s :: rest =>
    match findResponse s m with
    | some r => .ok r
    | none => waitForResponseRun m rest

/-- A predicate matcher accepting exactly one URL. -/
def exactM (u : String) : Matcher := .mpred fun x => .bool (x == u)

/-- The registry bookkeeping invariant of an attainable tracker state:
waiter ids are unique, armed timer ids are unique, and every registered
waiter still has its timer armed (the converse can fail after
`clear()`, which deletes entries without cancelling timers). -/
def Inv (s : TrackerState) : Prop :=
  (idsOf s.waitingRequests).Nodup ∧ (idsOf s.timers).Nodup ∧
    ∀ i, i ∈ idsOf s.waitingRequests → i ∈ idsOf s.timers

/-- Steps that neither satisfy the matcher of the given pending waiter
nor interfere with its registry entry: any response event (responses
never settle request waiters), request events whose URL the matcher
rejects, other waiters' timers, other registrations, and handler
table changes. -/
def harmless (id : Nat) (m : Matcher) : Step → Bool
  | .reqEvent r _ => !(matchesUrl r.url m)
  | .fireTimeout i => !(i == id)
  | .addWaiter i _ => !(i == id)
  | .clearStep => false
  | _ => true

/-! ## Concrete instances used by witnesses and counterexamples -/

def envW : Env := { cfg := defaultConfig, jsonOk := fun _ => false }

/-- An environment whose body ceiling is 3 bytes. -/
def envSmall : Env := { cfg := { defaultConfig with maxBodySize := 3 }, jsonOk := fun _ => false }

def dreqW : DriverRequest :=
  { url := "https://x/api/a", method := "GET", headers := [], postData := none,
    resourceType := "xhr", isNavigationRequest := false }

def dreqQ : DriverRequest := { dreqW with url := "https://q/late" }

def drespW : DriverResponse :=
  { url := "https://x/api/a", status := 200, statusText := "OK",
    headers := [("content-type", "text/plain")], ok := true, fromCache := false,
    fromServiceWorker := false, buffer := { len := 4, utf8 := "abcd", b64 := "YWJjZA==" } }

/-- Handler returning `helpers.continue({a: 1})`. -/
def hContA1 : Handler :=
  { matcher := .mstr "/api/",
    behavior := .reqB [.contH [("a", "1")]] (.returns (.objR .undef .undef (.boolV true))) }

/-- Handler returning `helpers.abort()`. -/
def hAbort : Handler :=
  { matcher := .mstr "/api/",
    behavior := .reqB [.abortH "failed"] (.returns (.objR (.str "failed") .undef .undefV)) }

/-- Handler returning `helpers.continue({a: 2})`. -/
def hContA2 : Handler :=
  { matcher := .mstr "/api/",
    behavior := .reqB [.contH [("a", "2")]] (.returns (.objR .undef .undef (.boolV true))) }

def hsW : List (Nat × Handler) := [(0, hContA1), (1, hAbort), (2, hContA2)]

/-- Handler calling `helpers.abort()` without returning its result:
the shared shouldContinue flag goes false with no short-circuit. -/
def hAbortNoReturn : Handler :=
  { matcher := .mstr "", behavior := .reqB [.abortH "failed"] (.returns .nonObj) }

/-- Handler calling `helpers.abort()` and then throwing. -/
def hAbortThrows : Handler :=
  { matcher := .mstr "", behavior := .reqB [.abortH "failed"] .throws }

/-- A waiter trace: two waiters on the same matcher, then one matching
request event. -/
def trC3 : List Step :=
  [.addWaiter 0 (.mstr "api"), .addWaiter 1 (.mstr "api"), .reqEvent dreqW 5]

/-- A tracker with one pending waiter for "q" (entry and armed timer). -/
def stC4 : TrackerState :=
  { startState with waitingRequests := [(0, .mstr "q")], timers := [(0, .mstr "q")] }

def reqRecW : RequestRecord := buildRequestRecord defaultConfig dreqW 1

/-- A tracker whose request store already holds a record matching "api". -/
def stC10 : TrackerState := { startState with requests := [("https://x/api/a", reqRecW)] }

def respRecW : ResponseRecord :=
  buildResponseRecord (fun _ => false) defaultConfig drespW 2 []

def dresp2W : DriverResponse := { drespW with status := 201, statusText := "Created" }

/-- A tracker whose response store already holds a record matching "api". -/
def stC10R : TrackerState := { startState with responses := [("https://x/api/a", respRecW)] }

/-- A tracker with two pending waiters for the same matcher. -/
def stC3p : TrackerState :=
  { startState with
    waitingRequests := [(0, .mstr "api"), (1, .mstr "api")]
    timers := [(0, .mstr "api"), (1, .mstr "api")] }

/-! ## General lemmas -/

theorem hasSub_iff (pat l : List Char) :
    hasSub pat l = true ↔ ∃ pre post, l = pre ++ pat ++ post := by
  induction l with
  | nil =>
    simp only [hasSub, List.isEmpty_iff]
    constructor
    · rintro rfl; exact ⟨[], [], rfl⟩
    · rintro ⟨pre, post, h⟩
      rcases List.append_eq_nil.mp (List.append_eq_nil.mp h.symm).1 with ⟨_, h2⟩
      exact h2
  | cons c rest ih =>
    simp only [hasSub, Bool.or_eq_true, ih]
    constructor
    · rintro (hp | ⟨pre, post, rfl⟩)
      · rcases List.isPrefixOf_iff_prefix.mp hp with ⟨t, ht⟩
        exact ⟨[], t, by simp [ht]⟩
      · exact ⟨c :: pre, post, rfl⟩
    · rintro ⟨pre, post, hsplit⟩
      cases pre with
      | nil =>
        left
        exact List.isPrefixOf_iff_prefix.mpr ⟨post, by simpa using hsplit.symm⟩
      | cons d pre =>
        right
        refine ⟨pre, post, ?_⟩
        have h2 : c :: rest = d :: (pre ++ pat ++ post) := by simpa using hsplit
        exact (List.cons.injEq _ _ _ _ ▸ h2).2

theorem strContains_append_self (a b : String) : strContains (a ++ b) b = true := by
  refine (hasSub_iff b.data (a ++ b).data).mpr ⟨a.data, [], ?_⟩
  simp

theorem mapGet_mapSet_self {α : Type} (st : Store α) (k : String) (v : α) :
    mapGet (mapSet st k v) k = some v := by
  induction st with
  | nil => simp [mapSet, mapGet]
  | cons p rest ih =>
    obtain ⟨u, d⟩ := p
    by_cases h : u = k <;> simp [mapSet, mapGet, h, ih]

theorem mem_keys_mapSet {α : Type} (st : Store α) (k x : String) (v : α)
    (hx : x ∈ (mapSet st k v).map Prod.fst) : x ∈ st.map Prod.fst ∨ x = k := by
  induction st with
  | nil => simpa [mapSet] using hx
  | cons p rest ih =>
    obtain ⟨u, d⟩ := p
    by_cases h : u = k
    · simp only [mapSet, if_pos h] at hx
      rcases List.mem_map.mp hx with ⟨q, hq, rfl⟩
      rcases List.mem_cons.mp hq with rfl | hq'
      · right; rfl
      · left; subst h; exact List.mem_map.mpr ⟨q, List.mem_cons_of_mem _ hq', rfl⟩
    · simp only [mapSet, if_neg h, List.map_cons, List.mem_cons] at hx ⊢
      rcases hx with rfl | hx'
      · left; left; rfl
      · rcases ih hx' with h1 | h2
        · left; right; exact h1
        · right; exact h2

theorem nodup_keys_mapSet {α : Type} (st : Store α) (k : String) (v : α)
    (h : (st.map Prod.fst).Nodup) : ((mapSet st k v).map Prod.fst).Nodup := by
  induction st with
  | nil => simp [mapSet]
  | cons p rest ih =>
    obtain ⟨u, d⟩ := p
    simp only [List.map_cons, List.nodup_cons] at h
    by_cases hk : u = k
    · subst hk
      simpa [mapSet] using h
    · simp only [mapSet, if_neg hk, List.map_cons, List.nodup_cons]
      refine ⟨fun hmem => ?_, ih h.2⟩
      rcases mem_keys_mapSet rest k u v hmem with h1 | h2
      · exact h.1 h1
      · exact hk h2

theorem self_mem_keys_mapSet {α : Type} (st : Store α) (k : String) (v : α) :
    k ∈ (mapSet st k v).map Prod.fst := by
  induction st with
  | nil => simp [mapSet]
  | cons p rest ih =>
    obtain ⟨u, d⟩ := p
    by_cases h : u = k <;> simp [mapSet, h, ih]

theorem matchesUrl_exactM (v u : String) : matchesUrl v (exactM u) = (v == u) := by
  simp [matchesUrl, exactM, matchUrlVal, truthy]

theorem findFirst_exactM {α : Type} (st : Store α) (u : String) :
    findFirst (exactM u) st = mapGet st u := by
  induction st with
  | nil => rfl
  | cons p rest ih =>
    obtain ⟨v, d⟩ := p
    by_cases h : v = u <;> simp [findFirst, mapGet, matchesUrl_exactM, h, ih]

theorem lookup_append {α : Type} (l1 l2 : List (String × α)) (k : String) :
    (l1 ++ l2).lookup k =
      (match l1.lookup k with | some v => some v | none => l2.lookup k) := by
  induction l1 with
  | nil => simp [List.lookup]
  | cons p rest ih =>
    obtain ⟨a, b⟩ := p
    by_cases h : k == a <;> simp [List.lookup, h, ih]

/-- With no response-phase handler registered, the response pipeline
leaves the stored body unchanged. -/
theorem runRespAux_no_resp (url : String) (hs : List (Nat × Handler)) (b : BodyVal)
    (h : ∀ p ∈ hs, isReqBehavior p.2.behavior = true) :
    runRespAux url hs b = { body := b, invoked := [], errs := [] } := by
  induction hs with
  | nil => rfl
  | cons p rest ih =>
    obtain ⟨i, hd⟩ := p
    have h1 := h (i, hd) (List.mem_cons_self _ _)
    have h2 := ih fun q hq => h q (List.mem_cons_of_mem _ hq)
    cases hb : hd.behavior with
    | reqB c o => simp [runRespAux, hb, h2]
    | respB c t => rw [hb] at h1; exact absurd h1 (by simp [isReqBehavior])

/-! ### Lemmas about id-keyed registries -/

theorem contains_iff_mem {l : List Nat} {a : Nat} : l.contains a = true ↔ a ∈ l :=
  List.elem_iff

theorem idsOf_cons {α : Type} (p : Nat × α) (l : List (Nat × α)) :
    idsOf (p :: l) = p.1 :: idsOf l := rfl

theorem idsOf_append {α : Type} (l1 l2 : List (Nat × α)) :
    idsOf (l1 ++ l2) = idsOf l1 ++ idsOf l2 := List.map_append _ _ _

theorem mem_idsOf_of_mem {α : Type} {l : List (Nat × α)} {p : Nat × α} (h : p ∈ l) :
    p.1 ∈ idsOf l := List.mem_map.mpr ⟨p, h, rfl⟩

theorem idsOf_filter_fst {α : Type} (l : List (Nat × α)) (q : Nat → Bool) :
    idsOf (l.filter fun p => q p.1) = (idsOf l).filter q := by
  induction l with
  | nil => rfl
  | cons p rest ih =>
    rw [List.filter_cons, idsOf_cons, List.filter_cons]
    by_cases h : q p.1 = true
    · rw [if_pos h, if_pos h, idsOf_cons, ih]
    · rw [if_neg h, if_neg h, ih]

theorem count_filter_true {q : Nat → Bool} {id : Nat} (h : q id = true) :
    ∀ l : List Nat, (l.filter q).count id = l.count id := by
  intro l
  induction l with
  | nil => rfl
  | cons a rest ih =>
    rw [List.filter_cons]
    by_cases hqa : q a = true
    · rw [if_pos hqa, List.count_cons, List.count_cons, ih]
    · have hne : (a == id) = false := by
        refine beq_eq_false_iff_ne.mpr fun he => ?_
        exact hqa (he ▸ h)
      rw [if_neg hqa, ih, List.count_cons, hne]
      simp

theorem count_filter_zero {q : Nat → Bool} {id : Nat} (h : q id = false)
    (l : List Nat) : (l.filter q).count id = 0 := by
  rw [List.count_eq_zero]
  intro hmem
  have := (List.mem_filter.mp hmem).2
  rw [h] at this
  exact Bool.false_ne_true this

theorem eq_of_nodup_fst {α : Type} {l : List (Nat × α)} (hn : (idsOf l).Nodup)
    {p q : Nat × α} (hp : p ∈ l) (hq : q ∈ l) (h : p.1 = q.1) : p = q := by
  induction l with
  | nil => cases hp
  | cons x rest ih =>
    rw [idsOf_cons, List.nodup_cons] at hn
    rcases List.mem_cons.mp hp with rfl | hp'
    · rcases List.mem_cons.mp hq with rfl | hq'
      · rfl
      · exfalso
        apply hn.1
        rw [h]
        exact mem_idsOf_of_mem hq'
    · rcases List.mem_cons.mp hq with rfl | hq'
      · exfalso
        apply hn.1
        rw [← h]
        exact mem_idsOf_of_mem hp'
      · exact ih hn.2 hp' hq'

theorem lookupId_eq_of_mem {α : Type} {l : List (Nat × α)} {i : Nat} {a : α}
    (hn : (idsOf l).Nodup) (h : (i, a) ∈ l) : lookupId l i = some a := by
  induction l with
  | nil => cases h
  | cons x rest ih =>
    rw [idsOf_cons, List.nodup_cons] at hn
    rcases List.mem_cons.mp h with he | h'
    · rw [← he]
      simp [lookupId]
    · obtain ⟨j, b⟩ := x
      have hji : ¬(j = i) := by
        intro he2
        apply hn.1
        rw [he2]
        exact mem_idsOf_of_mem (p := (i, a)) h'
      simp only [lookupId, if_neg hji]
      exact ih hn.2 h'

theorem not_mem_of_contains_false {l : List Nat} {a : Nat} (h : l.contains a = false) :
    a ∉ l :=
  fun hm => absurd (contains_iff_mem.mpr hm) (by rw [h]; exact Bool.false_ne_true)

theorem contains_false_of_not_mem {l : List Nat} {a : Nat} (h : a ∉ l) :
    l.contains a = false := by
  cases hc : l.contains a with
  | false => rfl
  | true => exact absurd (contains_iff_mem.mp hc) h

theorem idsOf_filter_ne {α : Type} (l : List (Nat × α)) (i : Nat) :
    idsOf (l.filter fun p => !(p.1 == i)) = (idsOf l).filter fun j => !(j == i) :=
  idsOf_filter_fst l fun j => !(j == i)

theorem idsOf_filter_ncontains {α : Type} (l : List (Nat × α)) (ids : List Nat) :
    idsOf (l.filter fun p => !(ids.contains p.1)) = (idsOf l).filter fun j => !(ids.contains j) :=
  idsOf_filter_fst l fun j => !(ids.contains j)

theorem idsOf_map_pairs {α β : Type} (l : List (Nat × α)) (g : Nat × α → β) :
    idsOf (l.map fun p => (p.1, g p)) = idsOf l := by
  induction l with
  | nil => rfl
  | cons p rest ih => simp only [List.map_cons, idsOf_cons, ih]

/-- The settlement/timer accounting of one step: the invariant is
preserved, the number of settlements plus armed timers for a given
waiter id grows exactly by the number of registrations of that id the
step performs, and a registration can only happen while both are
zero. -/
theorem step_inv_count (env : Env) (s : TrackerState) (st : Step) (id : Nat)
    (hok : okStep s st = true) (hinv : Inv s) :
    Inv (stepF env s st) ∧
    countId (stepF env s st).settled id + countId (stepF env s st).timers id
      = countId s.settled id + countId s.timers id + addsOfStep id st ∧
    (addsOfStep id st = 1 → countId s.settled id + countId s.timers id = 0) := by
  obtain ⟨hW, hT, hWT⟩ := hinv
  cases st with
  | addWaiter i m =>
    have hok' : ((!((idsOf s.timers).contains i)
        && !((idsOf s.waitingRequests).contains i))
        && !((idsOf s.settled).contains i)) = true := hok
    rw [Bool.and_eq_true, Bool.and_eq_true] at hok'
    have hti' : i ∉ idsOf s.timers :=
      not_mem_of_contains_false ((Bool.not_eq_true' _) ▸ hok'.1.1)
    have hwi' : i ∉ idsOf s.waitingRequests :=
      not_mem_of_contains_false ((Bool.not_eq_true' _) ▸ hok'.1.2)
    have hsi' : i ∉ idsOf s.settled :=
      not_mem_of_contains_false ((Bool.not_eq_true' _) ▸ hok'.2)
    refine ⟨⟨?_, ?_, ?_⟩, ?_, ?_⟩
    · show (idsOf (s.waitingRequests ++ [(i, m)])).Nodup
      rw [idsOf_append]
      exact (List.perm_append_singleton i _).nodup_iff.mpr
        (List.nodup_cons.mpr ⟨hwi', hW⟩)
    · show (idsOf (s.timers ++ [(i, m)])).Nodup
      rw [idsOf_append]
      exact (List.perm_append_singleton i _).nodup_iff.mpr
        (List.nodup_cons.mpr ⟨hti', hT⟩)
    · intro j hj
      have hj' : j ∈ idsOf s.waitingRequests ++ idsOf [(i, m)] := by
        rw [← idsOf_append]; exact hj
      show j ∈ idsOf (s.timers ++ [(i, m)])
      rw [idsOf_append]
      rcases List.mem_append.mp hj' with hj1 | hj2
      · exact List.mem_append.mpr (Or.inl (hWT j hj1))
      · exact List.mem_append.mpr (Or.inr hj2)
    · show countId s.settled id + countId (s.timers ++ [(i, m)]) id
        = countId s.settled id + countId s.timers id + addsOfStep id (Step.addWaiter i m)
      unfold countId
      rw [idsOf_append, List.count_append,
        show idsOf [(i, m)] = [i] from rfl, List.count_singleton]
      simp only [addsOfStep]
      by_cases hi : i = id
      · rw [if_pos (by simp [hi]), if_pos hi]
        omega
      · rw [if_neg (by simp [hi]), if_neg hi]
        omega
    · intro hadds
      simp only [addsOfStep] at hadds
      have hi : i = id := by
        by_contra hne
        rw [if_neg hne] at hadds
        exact absurd hadds (by decide)
      subst hi
      unfold countId
      rw [List.count_eq_zero.mpr hsi', List.count_eq_zero.mpr hti']
  | fireTimeout i =>
    have hok' : (idsOf s.timers).contains i = true := hok
    have hmem : i ∈ idsOf s.timers := contains_iff_mem.mp hok'
    obtain ⟨⟨i2, m⟩, hpm, hpe⟩ := List.mem_map.mp hmem
    have hpm2 : (i, m) ∈ s.timers := by
      have h2 : i2 = i := hpe
      rwa [h2] at hpm
    have hlook : lookupId s.timers i = some m := lookupId_eq_of_mem hT hpm2
    have hstep : stepF env s (.fireTimeout i) = { s with
        waitingRequests := s.waitingRequests.filter fun p => !(p.1 == i),
        timers := s.timers.filter fun p => !(p.1 == i),
        settled := s.settled ++ [(i, Settlement.rej (timeoutMessageReq m))] } := by
      show stepFireTimeout s i = _
      unfold stepFireTimeout
      rw [hlook]
    rw [hstep]
    refine ⟨⟨?_, ?_, ?_⟩, ?_, fun hadds => absurd hadds (by simp [addsOfStep])⟩
    · show (idsOf (s.waitingRequests.filter fun p => !(p.1 == i))).Nodup
      rw [idsOf_filter_ne]
      exact hW.filter _
    · show (idsOf (s.timers.filter fun p => !(p.1 == i))).Nodup
      rw [idsOf_filter_ne]
      exact hT.filter _
    · intro j hj
      have hj' : j ∈ (idsOf s.waitingRequests).filter fun k => !(k == i) := by
        rw [← idsOf_filter_ne]; exact hj
      show j ∈ idsOf (s.timers.filter fun p => !(p.1 == i))
      rw [idsOf_filter_ne]
      rcases List.mem_filter.mp hj' with ⟨hj1, hj2⟩
      exact List.mem_filter.mpr ⟨hWT j hj1, hj2⟩
    · show countId (s.settled ++ [(i, Settlement.rej (timeoutMessageReq m))]) id
          + countId (s.timers.filter fun p => !(p.1 == i)) id
        = countId s.settled id + countId s.timers id + addsOfStep id (Step.fireTimeout i)
      unfold countId
      rw [idsOf_append, List.count_append, idsOf_filter_ne,
        show idsOf [(i, Settlement.rej (timeoutMessageReq m))] = [i] from rfl,
        List.count_singleton]
      simp only [addsOfStep]
      by_cases hi : i = id
      · subst hi
        rw [count_filter_zero (by simp) (idsOf s.timers), if_pos (by simp),
          List.count_eq_one_of_mem hT hmem]
      · rw [count_filter_true (by simp [Ne.symm hi]) (idsOf s.timers),
          if_neg (by simp [hi])]
        omega
  | respEvent r now =>
    refine ⟨⟨hW, hT, hWT⟩, ?_, fun hadds => absurd hadds (by simp [addsOfStep])⟩
    show countId s.settled id + countId s.timers id
      = countId s.settled id + countId s.timers id + addsOfStep id (Step.respEvent r now)
    simp [addsOfStep]
  | clearStep =>
    refine ⟨⟨List.nodup_nil, hT, fun j hj => absurd hj (List.not_mem_nil j)⟩,
      ?_, fun hadds => absurd hadds (by simp [addsOfStep])⟩
    show countId s.settled id + countId s.timers id
      = countId s.settled id + countId s.timers id + addsOfStep id Step.clearStep
    simp [addsOfStep]
  | addHandler i h =>
    refine ⟨⟨hW, hT, hWT⟩, ?_, fun hadds => absurd hadds (by simp [addsOfStep])⟩
    show countId s.settled id + countId s.timers id
      = countId s.settled id + countId s.timers id + addsOfStep id (Step.addHandler i h)
    simp [addsOfStep]
  | removeHandler i =>
    refine ⟨⟨hW, hT, hWT⟩, ?_, fun hadds => absurd hadds (by simp [addsOfStep])⟩
    show countId s.settled id + countId s.timers id
      = countId s.settled id + countId s.timers id + addsOfStep id (Step.removeHandler i)
    simp [addsOfStep]
  | reqEvent r now =>
    have hstep : stepF env s (.reqEvent r now) = { s with
        requests := mapSet s.requests r.url (buildRequestRecord env.cfg r now),
        waitingRequests := s.waitingRequests.filter fun p => !(matchesUrl r.url p.2),
        timers := s.timers.filter fun p =>
          !(((s.waitingRequests.filter fun p2 =>
              matchesUrl r.url p2.2).map Prod.fst).contains p.1),
        settled := s.settled ++ (s.waitingRequests.filter fun p =>
          matchesUrl r.url p.2).map
            fun p => (p.1, Settlement.res (buildRequestRecord env.cfg r now)) } := rfl
    rw [hstep]
    have hsubW : ∀ p, p ∈ (s.waitingRequests.filter fun p2 => matchesUrl r.url p2.2) →
        p ∈ s.waitingRequests := fun p hp => (List.mem_filter.mp hp).1
    have hWnd : (idsOf (s.waitingRequests.filter fun p2 => matchesUrl r.url p2.2)).Nodup :=
      ((List.filter_sublist _).map Prod.fst).nodup hW
    refine ⟨⟨?_, ?_, ?_⟩, ?_, fun hadds => absurd hadds (by simp [addsOfStep])⟩
    · show (idsOf (s.waitingRequests.filter fun p => !(matchesUrl r.url p.2))).Nodup
      exact ((List.filter_sublist _).map Prod.fst).nodup hW
    · show (idsOf (s.timers.filter fun p =>
        !(((s.waitingRequests.filter fun p2 =>
          matchesUrl r.url p2.2).map Prod.fst).contains p.1))).Nodup
      rw [idsOf_filter_ncontains]
      exact hT.filter _
    · intro j hj
      obtain ⟨p, hp, hpe⟩ := List.mem_map.mp hj
      rcases List.mem_filter.mp hp with ⟨hpw, hpf⟩
      have hpf' : matchesUrl r.url p.2 = false := by
        rwa [Bool.not_eq_true'] at hpf
      show j ∈ idsOf (s.timers.filter fun p3 =>
        !(((s.waitingRequests.filter fun p2 =>
          matchesUrl r.url p2.2).map Prod.fst).contains p3.1))
      rw [idsOf_filter_ncontains]
      refine List.mem_filter.mpr ⟨hWT j (hpe ▸ mem_idsOf_of_mem hpw), ?_⟩
      rw [Bool.not_eq_true']
      refine contains_false_of_not_mem fun hjW => ?_
      obtain ⟨q, hq, hqe⟩ := List.mem_map.mp hjW
      rcases List.mem_filter.mp hq with ⟨hqw, hqf⟩
      have hpq : p = q := eq_of_nodup_fst hW hpw hqw (by rw [hpe, hqe])
      rw [hpq, hqf] at hpf'
      cases hpf'
    · show countId (s.settled ++ (s.waitingRequests.filter fun p =>
            matchesUrl r.url p.2).map
            fun p => (p.1, Settlement.res (buildRequestRecord env.cfg r now))) id
          + countId (s.timers.filter fun p =>
            !(((s.waitingRequests.filter fun p2 =>
              matchesUrl r.url p2.2).map Prod.fst).contains p.1)) id
        = countId s.settled id + countId s.timers id + addsOfStep id (Step.reqEvent r now)
      unfold countId
      rw [idsOf_append, List.count_append, idsOf_map_pairs, idsOf_filter_ncontains]
      simp only [addsOfStep]
      by_cases hid : id ∈ idsOf (s.waitingRequests.filter fun p2 => matchesUrl r.url p2.2)
      · have hc1 : (idsOf (s.waitingRequests.filter fun p2 =>
            matchesUrl r.url p2.2)).count id = 1 := List.count_eq_one_of_mem hWnd hid
        have hidT : id ∈ idsOf s.timers := by
          obtain ⟨p, hp, hpe⟩ := List.mem_map.mp hid
          exact hWT id (hpe ▸ mem_idsOf_of_mem (hsubW p hp))
        have hzero : ((idsOf s.timers).filter fun j =>
            !(((s.waitingRequests.filter fun p2 =>
              matchesUrl r.url p2.2).map Prod.fst).contains j)).count id = 0 := by
          refine count_filter_zero ?_ _
          show (!((idsOf (s.waitingRequests.filter fun p2 =>
            matchesUrl r.url p2.2)).contains id)) = false
          rw [contains_iff_mem.mpr hid]
          rfl
        rw [hc1, hzero, List.count_eq_one_of_mem hT hidT]
      · have hc0 : (idsOf (s.waitingRequests.filter fun p2 =>
            matchesUrl r.url p2.2)).count id = 0 := List.count_eq_zero.mpr hid
        have hsame : ((idsOf s.timers).filter fun j =>
            !(((s.waitingRequests.filter fun p2 =>
              matchesUrl r.url p2.2).map Prod.fst).contains j)).count id
            = (idsOf s.timers).count id := by
          refine count_filter_true ?_ _
          show (!((idsOf (s.waitingRequests.filter fun p2 =>
            matchesUrl r.url p2.2)).contains id)) = true
          rw [contains_false_of_not_mem hid]
          rfl
        rw [hc0, hsame]
        omega

/-- Settlement/timer accounting along a whole valid trace. -/
theorem trace_count (env : Env) (id : Nat) :
    ∀ (tr : List Step) (s : TrackerState), okTrace env s tr = true → Inv s →
      Inv (runTrace env s tr) ∧
      countId (runTrace env s tr).settled id + countId (runTrace env s tr).timers id
        = countId s.settled id + countId s.timers id + countAdds tr id ∧
      (countId s.settled id + countId s.timers id ≤ 1 →
        countId (runTrace env s tr).settled id + countId (runTrace env s tr).timers id ≤ 1) := by
  intro tr
  induction tr with
  | nil =>
    intro s _ hinv
    exact ⟨hinv, by simp [runTrace, countAdds], fun h => h⟩
  | cons st tr ih =>
    intro s hok hinv
    have hok2 : (okStep s st && okTrace env (stepF env s st) tr) = true := hok
    rw [Bool.and_eq_true] at hok2
    obtain ⟨hinv2, heq, hz⟩ := step_inv_count env s st id hok2.1 hinv
    obtain ⟨hI, hE, hL⟩ := ih (stepF env s st) hok2.2 hinv2
    have hca : countAdds (st :: tr) id = addsOfStep id st + countAdds tr id := by
      show ((st :: tr).map (addsOfStep id)).sum = _
      rw [List.map_cons, List.sum_cons]
      rfl
    have hadds01 : addsOfStep id st = 0 ∨ addsOfStep id st = 1 := by
      cases st with
      | addWaiter i m =>
        by_cases hi : i = id
        · right; simp [addsOfStep, hi]
        · left; simp [addsOfStep, hi]
      | fireTimeout i => left; rfl
      | reqEvent r n => left; rfl
      | respEvent r n => left; rfl
      | clearStep => left; rfl
      | addHandler i h => left; rfl
      | removeHandler i => left; rfl
    have hrun : runTrace env s (st :: tr) = runTrace env (stepF env s st) tr := rfl
    rw [hrun]
    refine ⟨hI, ?_, ?_⟩
    · rw [hE, heq, hca]
      omega
    · intro hle
      refine hL ?_
      rcases hadds01 with h0 | h1
      · rw [heq, h0]
        omega
      · rw [heq, h1, hz h1]

theorem settledFor_eq_nil {s : TrackerState} {id : Nat} (h : id ∉ idsOf s.settled) :
    settledFor s id = [] := by
  rw [settledFor, List.filter_eq_nil_iff]
  intro p hp hpe
  rw [beq_iff_eq] at hpe
  exact h (hpe ▸ mem_idsOf_of_mem hp)

theorem runTrace_append (env : Env) (tr1 tr2 : List Step) :
    ∀ s, runTrace env s (tr1 ++ tr2) = runTrace env (runTrace env s tr1) tr2 := by
  induction tr1 with
  | nil => intro s; rfl
  | cons st tr ih => intro s; exact ih (stepF env s st)

theorem okTrace_append (env : Env) (tr1 tr2 : List Step) :
    ∀ s, okTrace env s (tr1 ++ tr2)
      = (okTrace env s tr1 && okTrace env (runTrace env s tr1) tr2) := by
  induction tr1 with
  | nil =>
    intro s
    show okTrace env s tr2 = (true && okTrace env s tr2)
    rw [Bool.true_and]
  | cons st tr ih =>
    intro s
    show (okStep s st && okTrace env (stepF env s st) (tr ++ tr2)) = _
    rw [ih (stepF env s st), ← Bool.and_assoc]
    rfl

/-- Once a waiter has settled and is gone from the registry and timer
set, no further valid step settles it again or brings it back. -/
theorem settled_stable (env : Env) (id : Nat) :
    ∀ (tr : List Step) (s : TrackerState), okTrace env s tr = true →
      id ∈ idsOf s.settled → id ∉ idsOf s.waitingRequests → id ∉ idsOf s.timers →
      settledFor (runTrace env s tr) id = settledFor s id ∧
      id ∈ idsOf (runTrace env s tr).settled ∧
      id ∉ idsOf (runTrace env s tr).waitingRequests ∧
      id ∉ idsOf (runTrace env s tr).timers := by
  intro tr
  induction tr with
  | nil => intro s _ h1 h2 h3; exact ⟨rfl, h1, h2, h3⟩
  | cons st tr ih =>
    intro s hok hS hW hT
    have hok2 : (okStep s st && okTrace env (stepF env s st) tr) = true := hok
    rw [Bool.and_eq_true] at hok2
    have hstep : settledFor (stepF env s st) id = settledFor s id ∧
        id ∈ idsOf (stepF env s st).settled ∧
        id ∉ idsOf (stepF env s st).waitingRequests ∧
        id ∉ idsOf (stepF env s st).timers := by
      cases st with
      | addWaiter i m =>
        have hokA : ((!((idsOf s.timers).contains i)
            && !((idsOf s.waitingRequests).contains i))
            && !((idsOf s.settled).contains i)) = true := hok2.1
        rw [Bool.and_eq_true, Bool.and_eq_true] at hokA
        have his : i ∉ idsOf s.settled :=
          not_mem_of_contains_false ((Bool.not_eq_true' _) ▸ hokA.2)
        have hne : i ≠ id := fun he => his (he ▸ hS)
        refine ⟨rfl, hS, ?_, ?_⟩
        · intro hmem
          have hmem' : id ∈ idsOf s.waitingRequests ++ idsOf [(i, m)] := by
            rw [← idsOf_append]; exact hmem
          rcases List.mem_append.mp hmem' with h | h
          · exact hW h
          · exact hne (List.mem_singleton.mp h).symm
        · intro hmem
          have hmem' : id ∈ idsOf s.timers ++ idsOf [(i, m)] := by
            rw [← idsOf_append]; exact hmem
          rcases List.mem_append.mp hmem' with h | h
          · exact hT h
          · exact hne (List.mem_singleton.mp h).symm
      | fireTimeout i =>
        have hokF : (idsOf s.timers).contains i = true := hok2.1
        have hmemT : i ∈ idsOf s.timers := contains_iff_mem.mp hokF
        have hne : i ≠ id := fun he => hT (he ▸ hmemT)
        cases hl : lookupId s.timers i with
        | none =>
          have heq : stepF env s (.fireTimeout i) = s := by
            show stepFireTimeout s i = s
            unfold stepFireTimeout
            rw [hl]
          rw [heq]
          exact ⟨rfl, hS, hW, hT⟩
        | some m0 =>
          have heq : stepF env s (.fireTimeout i) = { s with
              waitingRequests := s.waitingRequests.filter fun p => !(p.1 == i),
              timers := s.timers.filter fun p => !(p.1 == i),
              settled := s.settled ++ [(i, Settlement.rej (timeoutMessageReq m0))] } := by
            show stepFireTimeout s i = _
            unfold stepFireTimeout
            rw [hl]
          rw [heq]
          refine ⟨?_, ?_, ?_, ?_⟩
          · show (s.settled ++ [(i, Settlement.rej (timeoutMessageReq m0))]).filter
                (fun p => p.1 == id) = settledFor s id
            rw [List.filter_append]
            have hnil : ([(i, Settlement.rej (timeoutMessageReq m0))].filter
                fun p => p.1 == id) = [] := by
              simp [List.filter_cons, hne]
            rw [hnil, List.append_nil]
            rfl
          · show id ∈ idsOf (s.settled ++ [(i, Settlement.rej (timeoutMessageReq m0))])
            rw [idsOf_append]
            exact List.mem_append.mpr (Or.inl hS)
          · show id ∉ idsOf (s.waitingRequests.filter fun p => !(p.1 == i))
            rw [idsOf_filter_ne]
            intro hmem
            exact hW (List.mem_filter.mp hmem).1
          · show id ∉ idsOf (s.timers.filter fun p => !(p.1 == i))
            rw [idsOf_filter_ne]
            intro hmem
            exact hT (List.mem_filter.mp hmem).1
      | reqEvent r now =>
        refine ⟨?_, ?_, ?_, ?_⟩
        · show (s.settled ++ (s.waitingRequests.filter fun p =>
              matchesUrl r.url p.2).map
              (fun p => (p.1, Settlement.res (buildRequestRecord env.cfg r now)))).filter
                (fun p => p.1 == id) = settledFor s id
          rw [List.filter_append]
          have hnilw : (((s.waitingRequests.filter fun p => matchesUrl r.url p.2).map
              fun p => (p.1, Settlement.res (buildRequestRecord env.cfg r now))).filter
              fun p => p.1 == id) = [] := by
            rw [List.filter_eq_nil_iff]
            intro p hp
            obtain ⟨q, hq, rfl⟩ := List.mem_map.mp hp
            have hqw : q ∈ s.waitingRequests := (List.mem_filter.mp hq).1
            have hqne : q.1 ≠ id := fun he => hW (he ▸ mem_idsOf_of_mem hqw)
            simpa using hqne
          rw [hnilw, List.append_nil]
          rfl
        · show id ∈ idsOf (s.settled ++ (s.waitingRequests.filter fun p =>
              matchesUrl r.url p.2).map
              fun p => (p.1, Settlement.res (buildRequestRecord env.cfg r now)))
          rw [idsOf_append]
          exact List.mem_append.mpr (Or.inl hS)
        · show id ∉ idsOf (s.waitingRequests.filter fun p => !(matchesUrl r.url p.2))
          intro hmem
          obtain ⟨p, hp, hpe⟩ := List.mem_map.mp hmem
          exact hW (hpe ▸ mem_idsOf_of_mem (List.mem_filter.mp hp).1)
        · show id ∉ idsOf (s.timers.filter fun p =>
            !(((s.waitingRequests.filter fun p2 =>
              matchesUrl r.url p2.2).map Prod.fst).contains p.1))
          intro hmem
          obtain ⟨p, hp, hpe⟩ := List.mem_map.mp hmem
          exact hT (hpe ▸ mem_idsOf_of_mem (List.mem_filter.mp hp).1)
      | respEvent r now => exact ⟨rfl, hS, hW, hT⟩
      | clearStep =>
        refine ⟨rfl, hS, ?_, hT⟩
        intro hmem
        exact absurd hmem (List.not_mem_nil id)
      | addHandler i h => exact ⟨rfl, hS, hW, hT⟩
      | removeHandler i => exact ⟨rfl, hS, hW, hT⟩
    obtain ⟨e1, e2, e3, e4⟩ := hstep
    obtain ⟨f1, f2, f3, f4⟩ := ih (stepF env s st) hok2.2 e2 e3 e4
    refine ⟨?_, f2, f3, f4⟩
    show settledFor (runTrace env (stepF env s st) tr) id = settledFor s id
    rw [f1, e1]

/-- A pending waiter stays pending, with its timer armed and no
settlement, across any valid steps that are harmless for it. -/
theorem pending_stable (env : Env) (id : Nat) (m : Matcher) :
    ∀ (tr : List Step) (s : TrackerState), okTrace env s tr = true →
      (∀ st ∈ tr, harmless id m st = true) →
      (id, m) ∈ s.waitingRequests → (id, m) ∈ s.timers →
      (idsOf s.waitingRequests).Nodup → (idsOf s.timers).Nodup →
      settledFor s id = [] →
      ((id, m) ∈ (runTrace env s tr).waitingRequests ∧
        (id, m) ∈ (runTrace env s tr).timers ∧
        (idsOf (runTrace env s tr).waitingRequests).Nodup ∧
        (idsOf (runTrace env s tr).timers).Nodup ∧
        settledFor (runTrace env s tr) id = []) := by
  intro tr
  induction tr with
  | nil => intro s _ _ h1 h2 h3 h4 h5; exact ⟨h1, h2, h3, h4, h5⟩
  | cons st tr ih =>
    intro s hok hharm hw ht hnW hnT hsf
    have hok2 : (okStep s st && okTrace env (stepF env s st) tr) = true := hok
    rw [Bool.and_eq_true] at hok2
    have hharm1 : harmless id m st = true := hharm st (List.mem_cons_self _ _)
    have hharmr : ∀ st2 ∈ tr, harmless id m st2 = true :=
      fun st2 h => hharm st2 (List.mem_cons_of_mem _ h)
    have hstep : (id, m) ∈ (stepF env s st).waitingRequests ∧
        (id, m) ∈ (stepF env s st).timers ∧
        (idsOf (stepF env s st).waitingRequests).Nodup ∧
        (idsOf (stepF env s st).timers).Nodup ∧
        settledFor (stepF env s st) id = [] := by
      cases st with
      | addWaiter i m2 =>
        have hokA : ((!((idsOf s.timers).contains i)
            && !((idsOf s.waitingRequests).contains i))
            && !((idsOf s.settled).contains i)) = true := hok2.1
        rw [Bool.and_eq_true, Bool.and_eq_true] at hokA
        have hit : i ∉ idsOf s.timers :=
          not_mem_of_contains_false ((Bool.not_eq_true' _) ▸ hokA.1.1)
        have hiw : i ∉ idsOf s.waitingRequests :=
          not_mem_of_contains_false ((Bool.not_eq_true' _) ▸ hokA.1.2)
        refine ⟨List.mem_append.mpr (Or.inl hw), List.mem_append.mpr (Or.inl ht),
          ?_, ?_, hsf⟩
        · show (idsOf (s.waitingRequests ++ [(i, m2)])).Nodup
          rw [idsOf_append]
          exact (List.perm_append_singleton i _).nodup_iff.mpr
            (List.nodup_cons.mpr ⟨hiw, hnW⟩)
        · show (idsOf (s.timers ++ [(i, m2)])).Nodup
          rw [idsOf_append]
          exact (List.perm_append_singleton i _).nodup_iff.mpr
            (List.nodup_cons.mpr ⟨hit, hnT⟩)
      | fireTimeout i =>
        have hne : ¬(i = id) := by
          have h1 := hharm1
          rw [show harmless id m (Step.fireTimeout i) = !(i == id) from rfl,
            Bool.not_eq_true'] at h1
          exact fun he => by rw [beq_eq_false_iff_ne] at h1; exact h1 he
        cases hl : lookupId s.timers i with
        | none =>
          have heq : stepF env s (.fireTimeout i) = s := by
            show stepFireTimeout s i = s
            unfold stepFireTimeout
            rw [hl]
          rw [heq]
          exact ⟨hw, ht, hnW, hnT, hsf⟩
        | some m0 =>
          have heq : stepF env s (.fireTimeout i) = { s with
              waitingRequests := s.waitingRequests.filter fun p => !(p.1 == i),
              timers := s.timers.filter fun p => !(p.1 == i),
              settled := s.settled ++ [(i, Settlement.rej (timeoutMessageReq m0))] } := by
            show stepFireTimeout s i = _
            unfold stepFireTimeout
            rw [hl]
          rw [heq]
          refine ⟨List.mem_filter.mpr ⟨hw, by simp [Ne.symm hne]⟩,
            List.mem_filter.mpr ⟨ht, by simp [Ne.symm hne]⟩, ?_, ?_, ?_⟩
          · show (idsOf (s.waitingRequests.filter fun p => !(p.1 == i))).Nodup
            rw [idsOf_filter_ne]
            exact hnW.filter _
          · show (idsOf (s.timers.filter fun p => !(p.1 == i))).Nodup
            rw [idsOf_filter_ne]
            exact hnT.filter _
          · show (s.settled ++ [(i, Settlement.rej (timeoutMessageReq m0))]).filter
                (fun p => p.1 == id) = []
            rw [List.filter_append, show s.settled.filter (fun p => p.1 == id)
              = settledFor s id from rfl, hsf]
            simp [List.filter_cons, hne]
      | reqEvent r now =>
        have hnm : matchesUrl r.url m = false := by
          have h1 := hharm1
          rw [show harmless id m (Step.reqEvent r now) = !(matchesUrl r.url m) from rfl,
            Bool.not_eq_true'] at h1
          exact h1
        refine ⟨List.mem_filter.mpr ⟨hw, by simp [hnm]⟩, ?_, ?_, ?_, ?_⟩
        · refine List.mem_filter.mpr ⟨ht, ?_⟩
          rw [Bool.not_eq_true']
          refine contains_false_of_not_mem fun hidW => ?_
          obtain ⟨q, hq, hqe⟩ := List.mem_map.mp hidW
          rcases List.mem_filter.mp hq with ⟨hqw, hqf⟩
          have hqm : q = (id, m) := eq_of_nodup_fst hnW hqw hw (by rw [hqe])
          rw [hqm] at hqf
          rw [show ((id, m).2) = m from rfl, hnm] at hqf
          cases hqf
        · show (idsOf (s.waitingRequests.filter fun p => !(matchesUrl r.url p.2))).Nodup
          exact ((List.filter_sublist _).map Prod.fst).nodup hnW
        · show (idsOf (s.timers.filter fun p =>
            !(((s.waitingRequests.filter fun p2 =>
              matchesUrl r.url p2.2).map Prod.fst).contains p.1))).Nodup
          rw [idsOf_filter_ncontains]
          exact hnT.filter _
        · show (s.settled ++ (s.waitingRequests.filter fun p =>
              matchesUrl r.url p.2).map
              (fun p => (p.1, Settlement.res (buildRequestRecord env.cfg r now)))).filter
              (fun p => p.1 == id) = []
          rw [List.filter_append, show s.settled.filter (fun p => p.1 == id)
            = settledFor s id from rfl, hsf, List.nil_append, List.filter_eq_nil_iff]
          intro p hp
          obtain ⟨q, hq, rfl⟩ := List.mem_map.mp hp
          rcases List.mem_filter.mp hq with ⟨hqw, hqf⟩
          have hqne : q.1 ≠ id := by
            intro he
            have hqm : q = (id, m) := eq_of_nodup_fst hnW hqw hw he
            rw [hqm] at hqf
            rw [show ((id, m).2) = m from rfl, hnm] at hqf
            cases hqf
          simpa using hqne
      | respEvent r now => exact ⟨hw, ht, hnW, hnT, hsf⟩
      | clearStep =>
        rw [show harmless id m Step.clearStep = false from rfl] at hharm1
        cases hharm1
      | addHandler i h => exact ⟨hw, ht, hnW, hnT, hsf⟩
      | removeHandler i => exact ⟨hw, ht, hnW, hnT, hsf⟩
    obtain ⟨e1, e2, e3, e4, e5⟩ := hstep
    exact ih (stepF env s st) hok2.2 hharmr e1 e2 e3 e4 e5

/-- With only request-phase handlers registered, `_handleResponse`
stores exactly the freshly built record. -/
theorem stepRespEvent_no_resp (env : Env) (s : TrackerState) (r : DriverResponse) (now : Nat)
    (hh : ∀ p ∈ s.interceptHandlers, isReqBehavior p.2.behavior = true) :
    stepRespEvent env s r now =
      { s with responses :=
          mapSet s.responses r.url (buildResponseRecord env.jsonOk env.cfg r now s.requests) } := by
  simp only [stepRespEvent]
  rw [runRespAux_no_resp _ _ _ hh]

/-! ## Claim C1 -/

/-- C1, counterexample: in `_matchUrl` a predicate returning the
non-boolean value `undefined` fails to match even though its return
value is not the boolean false, contradicting the claim that only an
explicit false excludes the candidate. -/
theorem c1_counterexample :
    matchesUrl "https://x" (.mpred fun _ => JSValue.undef) = false ∧
      (fun _ => JSValue.undef : String → JSValue) "https://x" ≠ JSValue.bool false :=
  ⟨rfl, by decide⟩

/-- C1 (amended): in `_matchUrl` a string matcher tests substring
containment, a RegExp matcher delegates to its test, and a predicate
matches exactly when its return value is truthy — so non-boolean falsy
returns (undefined, null, 0, empty string) also fail to match.  The
only-explicit-false asymmetry holds in the reduced variant's
`waitForResponse` filter, where a predicate excludes the candidate
exactly when it returns the boolean false. -/
theorem c1_matcher_semantics :
    (∀ u s, matchesUrl u (.mstr s) = true ↔ ∃ pre post, u.data = pre ++ s.data ++ post) ∧
    (∀ u r, matchesUrl u (.mregex r) = r.test u) ∧
    (∀ u f, matchesUrl u (.mpred f) = truthy (f u)) ∧
    (∀ u f, p04UrlOk (.mpred f) u = true ↔ f u ≠ JSValue.bool false) := by
  refine ⟨fun u s => hasSub_iff s.data u.data, fun u r => rfl, fun u f => rfl, fun u f => ?_⟩
  rcases h : f u with b | n | s | _ | _ | _ <;> simp [p04UrlOk, h]

/-! ## Claim C6 -/

/-- C6: a response whose buffer exceeds `maxBodySize` is recorded with a
null body while its url, status, statusText, headers, ok and fromCache
fields are captured exactly as for any response; and, absent
response-phase handlers rewriting the body, the record is stored in the
response map under its URL and retrievable there. -/
theorem c6_oversized_body_null (env : Env) (s : TrackerState) (r : DriverResponse)
    (now : Nat) (hover : env.cfg.maxBodySize < r.buffer.len)
    (hh : ∀ p ∈ s.interceptHandlers, isReqBehavior p.2.behavior = true) :
    (buildResponseRecord env.jsonOk env.cfg r now s.requests).body = .nullB ∧
    (buildResponseRecord env.jsonOk env.cfg r now s.requests).url = r.url ∧
    (buildResponseRecord env.jsonOk env.cfg r now s.requests).status = r.status ∧
    (buildResponseRecord env.jsonOk env.cfg r now s.requests).statusText = r.statusText ∧
    (buildResponseRecord env.jsonOk env.cfg r now s.requests).headers =
      (if env.cfg.captureHeaders = true then some r.headers else none) ∧
    (buildResponseRecord env.jsonOk env.cfg r now s.requests).ok = r.ok ∧
    (buildResponseRecord env.jsonOk env.cfg r now s.requests).fromCache = r.fromCache ∧
    mapGet (stepF env s (.respEvent r now)).responses r.url =
      some (buildResponseRecord env.jsonOk env.cfg r now s.requests) := by
  have hbody : captureResponseBody env.jsonOk env.cfg r = .nullB := by
    unfold captureResponseBody
    rw [if_neg]
    rintro ⟨-, hle⟩
    exact absurd hle (Nat.not_le.mpr hover)
  refine ⟨hbody, rfl, rfl, rfl, rfl, rfl, rfl, ?_⟩
  have hpipe := runRespAux_no_resp r.url s.interceptHandlers
    (buildResponseRecord env.jsonOk env.cfg r now s.requests).body hh
  show mapGet (stepRespEvent env s r now).responses r.url = _
  simp only [stepRespEvent]
  rw [hpipe]
  exact mapGet_mapSet_self s.responses r.url _

/-! ## Claim C8 -/

/-- C8: `clear()` empties the request store, the response store and the
waiter registry, leaves the handler table untouched, and both
interception pipelines behave identically before and after, so every
handler registered before `clear()` still fires the same way. -/
theorem c8_clear_frame (s : TrackerState) :
    (clear s).requests = [] ∧
    (clear s).responses = [] ∧
    (clear s).waitingRequests = [] ∧
    (clear s).interceptHandlers = s.interceptHandlers ∧
    (∀ url, runReqPipeline (clear s).interceptHandlers url =
      runReqPipeline s.interceptHandlers url) ∧
    (∀ url b, runRespAux url (clear s).interceptHandlers b =
      runRespAux url s.interceptHandlers b) ∧
    (∀ m, findRequest (clear s) m = none ∧ findResponse (clear s) m = none) :=
  ⟨rfl, rfl, rfl, rfl, fun _ => rfl, fun _ _ => rfl, fun _ => ⟨rfl, rfl⟩⟩

/-! ## Claim C9 -/

/-- C9: `enable` on an enabled tracker fails with the usage error before
any state change; `disable` on a disabled tracker is a no-op; `enable`
on a disabled tracker enables it and `disable` on an enabled one
disables it; and no event-processing step ever changes the
enabled/disabled state, so these are the only transitions. -/
theorem c9_enable_disable_machine :
    (∀ s, s.isEnabled = true → enable s = (some enableErrorMsg, s)) ∧
    (∀ s, s.isEnabled = false → disable s = s) ∧
    (∀ s, s.isEnabled = false → (enable s).1 = none ∧ (enable s).2.isEnabled = true) ∧
    (∀ s, s.isEnabled = true → (disable s).isEnabled = false) ∧
    (∀ env s st, (stepF env s st).isEnabled = s.isEnabled) := by
  refine ⟨fun s h => by simp [enable, h], fun s h => by simp [disable, h],
    fun s h => by simp [enable, h], fun s h => by simp [disable, clear, h],
    fun env s st => ?_⟩
  cases st with
  | fireTimeout id =>
    show (stepFireTimeout s id).isEnabled = s.isEnabled
    unfold stepFireTimeout
    cases lookupId s.timers id <;> rfl
  | reqEvent r now => rfl
  | respEvent r now => rfl
  | addWaiter id m => rfl
  | clearStep => rfl
  | addHandler id h => rfl
  | removeHandler id => rfl

/-- Witness for C9 at concrete states: the freshly enabled tracker
refuses a second `enable` unchanged, and the fresh tracker ignores
`disable`. -/
theorem c9_witness :
    startState.isEnabled = true ∧
    enable startState = (some enableErrorMsg, startState) ∧
    newTracker.isEnabled = false ∧
    disable newTracker = newTracker :=
  ⟨rfl, c9_enable_disable_machine.1 startState rfl, rfl,
    c9_enable_disable_machine.2.1 newTracker rfl⟩

/-- Witness for C6 at a concrete oversized response: ceiling 3 bytes,
body of 4 bytes, no handlers registered. -/
theorem c6_witness :
    envSmall.cfg.maxBodySize < drespW.buffer.len ∧
    (buildResponseRecord envSmall.jsonOk envSmall.cfg drespW 2 startState.requests).body
      = .nullB ∧
    mapGet (stepF envSmall startState (.respEvent drespW 2)).responses drespW.url =
      some (buildResponseRecord envSmall.jsonOk envSmall.cfg drespW 2 startState.requests) := by
  have h := c6_oversized_body_null envSmall startState drespW 2 (by decide)
    (fun p hp => absurd hp (List.not_mem_nil p))
  exact ⟨by decide, h.1, h.2.2.2.2.2.2.2⟩

/-! ## Claim C5 -/

/-- C5: every event step preserves key-uniqueness of both stores (so at
most one request record and one response record are retained per URL),
and after recording two responses for the same URL, the store retrieves
only the record of the second one and holds exactly one entry for that
URL. -/
theorem c5_last_write_wins :
    (∀ env s st, (s.requests.map Prod.fst).Nodup → (s.responses.map Prod.fst).Nodup →
      ((stepF env s st).requests.map Prod.fst).Nodup ∧
      ((stepF env s st).responses.map Prod.fst).Nodup) ∧
    (∀ env s r1 r2 n1 n2, r1.url = r2.url →
      (∀ p ∈ s.interceptHandlers, isReqBehavior p.2.behavior = true) →
      (s.responses.map Prod.fst).Nodup →
      findResponse (runTrace env s [Step.respEvent r1 n1, Step.respEvent r2 n2])
          (exactM r2.url)
        = some (buildResponseRecord env.jsonOk env.cfg r2 n2 s.requests) ∧
      ((runTrace env s [Step.respEvent r1 n1, Step.respEvent r2 n2]).responses.map
          Prod.fst).count r2.url = 1) := by
  refine ⟨fun env s st h1 h2 => ?_, fun env s r1 r2 n1 n2 hurl hh hn => ?_⟩
  · cases st with
    | addWaiter id m => exact ⟨h1, h2⟩
    | fireTimeout id =>
      show ((stepFireTimeout s id).requests.map Prod.fst).Nodup ∧
        ((stepFireTimeout s id).responses.map Prod.fst).Nodup
      unfold stepFireTimeout
      cases lookupId s.timers id <;> exact ⟨h1, h2⟩
    | reqEvent r now => exact ⟨nodup_keys_mapSet _ _ _ h1, h2⟩
    | respEvent r now => exact ⟨h1, nodup_keys_mapSet _ _ _ h2⟩
    | clearStep => exact ⟨List.nodup_nil, List.nodup_nil⟩
    | addHandler id h => exact ⟨h1, h2⟩
    | removeHandler id => exact ⟨h1, h2⟩
  · have key : (runTrace env s [Step.respEvent r1 n1, Step.respEvent r2 n2]).responses
        = mapSet (mapSet s.responses r1.url
            (buildResponseRecord env.jsonOk env.cfg r1 n1 s.requests))
          r2.url (buildResponseRecord env.jsonOk env.cfg r2 n2 s.requests) := by
      show (stepRespEvent env (stepRespEvent env s r1 n1) r2 n2).responses = _
      have h2 := stepRespEvent_no_resp env (stepRespEvent env s r1 n1) r2 n2 hh
      rw [h2, stepRespEvent_no_resp env s r1 n1 hh]
    refine ⟨?_, ?_⟩
    · show findFirst (exactM r2.url)
        (runTrace env s [Step.respEvent r1 n1, Step.respEvent r2 n2]).responses = _
      rw [key, findFirst_exactM]
      exact mapGet_mapSet_self _ _ _
    · rw [key]
      exact List.count_eq_one_of_mem
        (nodup_keys_mapSet _ _ _ (nodup_keys_mapSet _ _ _ hn))
        (self_mem_keys_mapSet _ _ _)

/-! ## Claim C2 -/

theorem applyCalls_onlyCont (cs : List HelperCall) (b : Bool) (ov : Overrides)
    (h : (cs.all fun c => match c with | .contH _ => true | _ => false) = true) :
    applyCalls (b, ov) cs = (b, ov ++ contribOfCalls cs) := by
  induction cs generalizing ov with
  | nil => simp [applyCalls, contribOfCalls]
  | cons c rest ih =>
    cases c with
    | contH o =>
      simp only [List.all_cons, Bool.and_eq_true] at h
      show applyCalls (b, ov ++ o) rest = _
      rw [ih (ov ++ o) h.2]
      simp [contribOfCalls, List.append_assoc]
    | abortH code => simp [List.all_cons] at h
    | respondH r => simp [List.all_cons] at h

/-- The implementation's request pipeline agrees with the
specification's description of it on every list of disciplined
handlers (those that only use the continue helper unless their result
short-circuits). -/
theorem runReqAux_eq_spec (url : String) :
    ∀ (hs : List (Nat × Handler)), (∀ p ∈ hs, disciplined p.2 = true) → ∀ acc,
      (runReqAux url hs true acc).disp = (specReqAux url hs acc).1 ∧
      (runReqAux url hs true acc).invoked = (specReqAux url hs acc).2 := by
  intro hs
  induction hs with
  | nil => exact fun _ acc => ⟨rfl, rfl⟩
  | cons p rest ih =>
    intro hd acc
    obtain ⟨i, h⟩ := p
    have hdh := hd (i, h) (List.mem_cons_self _ _)
    have hdr : ∀ q ∈ rest, disciplined q.2 = true :=
      fun q hq => hd q (List.mem_cons_of_mem _ hq)
    cases hb : h.behavior with
    | respB calls thr =>
      simp only [runReqAux, specReqAux, hb]
      exact ih hdr acc
    | reqB calls outcome =>
      rw [disciplined, hb] at hdh
      cases hm : matchesUrl url h.matcher with
      | false => simp only [runReqAux, specReqAux, hb, hm, Bool.false_eq_true,
          if_false]; exact ih hdr acc
      | true =>
        cases outcome with
        | throws =>
          have hoc : (calls.all fun c =>
              match c with | .contH _ => true | _ => false) = true := by
            simpa [shortDisp] using hdh
          simp only [runReqAux, specReqAux, hb, hm, if_true, shortDisp,
            applyCalls_onlyCont calls true acc hoc, handlerContrib]
          obtain ⟨e1, e2⟩ := ih hdr (acc ++ contribOfCalls calls)
          constructor
          · rw [e1]; simp
          · rw [e2]; simp
        | returns r =>
          cases r with
          | nonObj =>
            have hoc : (calls.all fun c =>
                match c with | .contH _ => true | _ => false) = true := by
              simpa [shortDisp] using hdh
            simp only [runReqAux, specReqAux, hb, hm, if_true, shortDisp,
              applyCalls_onlyCont calls true acc hoc, handlerContrib]
            obtain ⟨e1, e2⟩ := ih hdr (acc ++ contribOfCalls calls)
            constructor
            · rw [e1]; simp
            · rw [e2]; simp
          | objR a rv c =>
            cases ha : truthy a with
            | true =>
              simp [runReqAux, specReqAux, hb, hm, shortDisp, ha]
            | false =>
              cases hrv : truthy rv with
              | true => simp [runReqAux, specReqAux, hb, hm, shortDisp, ha, hrv]
              | false =>
                have hoc : (calls.all fun c =>
                    match c with | .contH _ => true | _ => false) = true := by
                  simpa [shortDisp, ha, hrv] using hdh
                simp only [runReqAux, specReqAux, hb, hm, if_true, shortDisp, ha, hrv,
                  Bool.false_eq_true, if_false, applyCalls_onlyCont calls true acc hoc,
                  handlerContrib]
                cases hc : contTruthy c with
                | true =>
                  simp only [hc, if_true, ite_true, and_self, and_true, true_and,
                    eq_self_iff_true]
                  rw [List.append_assoc]
                  have e := ih hdr (acc ++ (contribOfCalls calls ++ contSpread c))
                  exact ⟨by rw [e.1], by rw [e.2]⟩
                | false =>
                  simp only [hc, Bool.false_eq_true, if_false, ite_false, and_false,
                    false_and, List.append_nil]
                  have e := ih hdr (acc ++ contribOfCalls calls)
                  exact ⟨by rw [e.1], by rw [e.2]⟩

/-- C2, counterexample: a matching handler that calls `helpers.abort()`
but returns nothing flips the shared shouldContinue flag, so the
pipeline applies no driver action at all, while the claim (no handler
result short-circuits, hence continue with the merged overrides, here
empty) predicts a continuation. -/
theorem c2_counterexample :
    (runReqPipeline [(0, hAbortNoReturn)] "u").disp = .noAction ∧
    (specReqPipeline [(0, hAbortNoReturn)] "u").1 = .continued [] ∧
    Disposition.noAction ≠ Disposition.continued [] :=
  ⟨by decide, by decide, by decide⟩

/-- C2 (amended): for handlers that either short-circuit through their
returned result or only use the continue helper, the pipeline behaves
exactly as claimed: matching request-phase handlers run in registration
order, the first abort/respond result is applied and ends the walk, and
otherwise the request continues with every participating handler's
overrides merged in order, later keys winning (`ovGet` of an appended
override object prefers the later object's binding). -/
theorem c2_pipeline_merge (hs : List (Nat × Handler)) (url : String)
    (hd : ∀ p ∈ hs, disciplined p.2 = true) :
    (runReqPipeline hs url).disp = (specReqPipeline hs url).1 ∧
    (runReqPipeline hs url).invoked = (specReqPipeline hs url).2 ∧
    (∀ (a b : Overrides) (k : String) (v : String),
      ovGet b k = some v → ovGet (a ++ b) k = some v) ∧
    (∀ (a b : Overrides) (k : String),
      ovGet b k = none → ovGet (a ++ b) k = ovGet a k) := by
  obtain ⟨h1, h2⟩ := runReqAux_eq_spec url hs hd []
  refine ⟨h1, h2, fun a b k v hv => ?_, fun a b k hn => ?_⟩
  · show (a ++ b).reverse.lookup k = some v
    rw [List.reverse_append, lookup_append b.reverse a.reverse k]
    have hb : b.reverse.lookup k = some v := hv
    rw [hb]
  · show (a ++ b).reverse.lookup k = _
    rw [List.reverse_append, lookup_append b.reverse a.reverse k]
    have hb : b.reverse.lookup k = none := hn
    rw [hb]
    rfl

/-- Witness for C2 at the specification's own test: H1 continues with
{a:1}, H2 aborts, H3 would continue with {a:2}; the pipeline aborts and
H3 is never invoked. -/
theorem c2_witness :
    (∀ p ∈ hsW, disciplined p.2 = true) ∧
    (runReqPipeline hsW "https://x/api/a").disp = (specReqPipeline hsW "https://x/api/a").1 ∧
    (runReqPipeline hsW "https://x/api/a").invoked
      = (specReqPipeline hsW "https://x/api/a").2 ∧
    (runReqPipeline hsW "https://x/api/a").disp = .aborted (.str "failed") ∧
    (runReqPipeline hsW "https://x/api/a").invoked = [0, 1] := by
  have hd : ∀ p ∈ hsW, disciplined p.2 = true := by decide
  obtain ⟨h1, h2, -⟩ := c2_pipeline_merge hsW "https://x/api/a" hd
  exact ⟨hd, h1, h2, by decide, by decide⟩

/-! ## Claim C7 -/

/-- C7, counterexample: a matching handler that calls `helpers.abort()`
and then throws is not equivalent to a non-matching handler — with it
the pipeline applies no driver action, without it the request would
continue — because helper calls made before the throw keep their
effect. -/
theorem c7_counterexample :
    (runReqPipeline [(0, hAbortThrows)] "u").disp = .noAction ∧
    (runReqPipeline [] "u").disp = .continued [] ∧
    Disposition.noAction ≠ Disposition.continued [] :=
  ⟨by decide, rfl, by decide⟩

/-- C7 (amended): a handler that throws without having used the
capability object is contained exactly as claimed, in both phases: its
error is caught and logged (its id lands in the error log), every later
handler still runs, and the event's outcome — disposition or stored
body — is the same as if the handler had not matched.  (Helper calls
made before a throw keep their effect; see the counterexample.) -/
theorem c7_thrown_handler_contained (url : String) (i : Nat) (m : Matcher)
    (rest : List (Nat × Handler)) (sc : Bool) (ov : Overrides) (b : BodyVal) :
    (runReqAux url ((i, { matcher := m, behavior := .reqB [] .throws }) :: rest) sc ov =
      (if matchesUrl url m then
        { disp := (runReqAux url rest sc ov).disp,
          invoked := i :: (runReqAux url rest sc ov).invoked,
          errs := i :: (runReqAux url rest sc ov).errs }
      else runReqAux url rest sc ov)) ∧
    (runRespAux url ((i, { matcher := m, behavior := .respB [] true }) :: rest) b =
      (if matchesUrl url m then
        { body := (runRespAux url rest b).body,
          invoked := i :: (runRespAux url rest b).invoked,
          errs := i :: (runRespAux url rest b).errs }
      else runRespAux url rest b)) := by
  constructor
  · cases hm : matchesUrl url m <;> simp [runReqAux, hm, applyCalls]
  · cases hm : matchesUrl url m <;> simp [runRespAux, hm]

/-- Witness for C5 at concrete inputs: two responses to the same URL,
the second with status 201, no handlers registered. -/
theorem c5_witness :
    findResponse (runTrace envW startState [Step.respEvent drespW 1, Step.respEvent dresp2W 2])
        (exactM dresp2W.url)
      = some (buildResponseRecord envW.jsonOk envW.cfg dresp2W 2 startState.requests) ∧
    ((runTrace envW startState [Step.respEvent drespW 1, Step.respEvent dresp2W 2]).responses.map
        Prod.fst).count dresp2W.url = 1 :=
  c5_last_write_wins.2 envW startState drespW dresp2W 1 2 rfl
    (fun p hp => absurd hp (List.not_mem_nil p)) List.nodup_nil

/-! ## Claim C3 -/

/-- C3: along every valid interaction with a freshly enabled tracker,
each waiter settles at most once; when every armed timer has been
consumed (cleared by a resolution or fired), each registered waiter has
settled exactly as many times as it was registered — i.e. exactly once;
and a single qualifying request event settles every pending waiter
whose matcher accepts it, each with that event's record (fan-out, not
first-wins). -/
theorem c3_waiter_settles_once :
    (∀ env tr id, okTrace env startState tr = true →
      countId (runTrace env startState tr).settled id ≤ 1) ∧
    (∀ env tr id, okTrace env startState tr = true →
      (runTrace env startState tr).timers = [] →
      countId (runTrace env startState tr).settled id = countAdds tr id) ∧
    (∀ env s r now id1 m1 id2 m2, (id1, m1) ∈ s.waitingRequests →
      (id2, m2) ∈ s.waitingRequests →
      matchesUrl r.url m1 = true → matchesUrl r.url m2 = true →
      (id1, Settlement.res (buildRequestRecord env.cfg r now))
          ∈ (stepF env s (.reqEvent r now)).settled ∧
      (id2, Settlement.res (buildRequestRecord env.cfg r now))
          ∈ (stepF env s (.reqEvent r now)).settled) := by
  have hinv0 : Inv startState :=
    ⟨List.nodup_nil, List.nodup_nil, fun i h => absurd h (List.not_mem_nil i)⟩
  refine ⟨fun env tr id hok => ?_, fun env tr id hok htim => ?_,
    fun env s r now id1 m1 id2 m2 h1 h2 hm1 hm2 => ?_⟩
  · obtain ⟨-, -, hL⟩ := trace_count env id tr startState hok hinv0
    have h0 : countId startState.settled id + countId startState.timers id = 0 := rfl
    have hle := hL (by rw [h0]; exact Nat.zero_le 1)
    omega
  · obtain ⟨-, hE, -⟩ := trace_count env id tr startState hok hinv0
    have h0 : countId startState.settled id + countId startState.timers id = 0 := rfl
    have htc : countId (runTrace env startState tr).timers id = 0 := by
      rw [countId, htim]
      rfl
    omega
  · constructor
    · show _ ∈ s.settled ++ (s.waitingRequests.filter fun p =>
          matchesUrl r.url p.2).map
          fun p => (p.1, Settlement.res (buildRequestRecord env.cfg r now))
      refine List.mem_append.mpr (Or.inr ?_)
      exact List.mem_map.mpr ⟨(id1, m1), List.mem_filter.mpr ⟨h1, hm1⟩, rfl⟩
    · show _ ∈ s.settled ++ (s.waitingRequests.filter fun p =>
          matchesUrl r.url p.2).map
          fun p => (p.1, Settlement.res (buildRequestRecord env.cfg r now))
      refine List.mem_append.mpr (Or.inr ?_)
      exact List.mem_map.mpr ⟨(id2, m2), List.mem_filter.mpr ⟨h2, hm2⟩, rfl⟩

/-- Witness for C3: two waiters on "api", one matching request event;
both settle, each exactly once, and the fan-out settles both with the
event's record. -/
theorem c3_witness :
    okTrace envW startState trC3 = true ∧
    countId (runTrace envW startState trC3).settled 0 ≤ 1 ∧
    countId (runTrace envW startState trC3).settled 0 = countAdds trC3 0 ∧
    (0, Settlement.res (buildRequestRecord envW.cfg dreqW 5))
        ∈ (stepF envW stC3p (.reqEvent dreqW 5)).settled ∧
    (1, Settlement.res (buildRequestRecord envW.cfg dreqW 5))
        ∈ (stepF envW stC3p (.reqEvent dreqW 5)).settled := by
  have hfan := c3_waiter_settles_once.2.2 envW stC3p dreqW 5 0 (.mstr "api") 1 (.mstr "api")
    (List.mem_cons_self _ _) (List.mem_cons_of_mem _ (List.mem_singleton.mpr rfl))
    (by decide) (by decide)
  exact ⟨by decide, c3_waiter_settles_once.1 envW trC3 0 (by decide),
    c3_waiter_settles_once.2.1 envW trC3 0 (by decide) (by rfl), hfan.1, hfan.2⟩

/-! ## Claim C4 -/

/-- C4: when the timeout timer of a pending waiter fires, the waiter is
rejected with the distinguishable timeout message carrying the matcher
description (the description occurs in the message as a substring), its
registry entry and its timer are removed in the same step, and no
subsequent valid steps — matching events included — ever settle it
again or change its single recorded rejection. -/
theorem c4_timeout_cleanup (env : Env) (s : TrackerState) (id : Nat) (m : Matcher)
    (tr2 : List Step)
    (hn : (idsOf s.timers).Nodup)
    (hm : (id, m) ∈ s.timers)
    (hs0 : settledFor s id = [])
    (hok2 : okTrace env (stepF env s (.fireTimeout id)) tr2 = true) :
    settledFor (stepF env s (.fireTimeout id)) id
      = [(id, Settlement.rej (timeoutMessageReq m))] ∧
    id ∉ idsOf (stepF env s (.fireTimeout id)).waitingRequests ∧
    id ∉ idsOf (stepF env s (.fireTimeout id)).timers ∧
    settledFor (runTrace env (stepF env s (.fireTimeout id)) tr2) id
      = [(id, Settlement.rej (timeoutMessageReq m))] ∧
    strContains (timeoutMessageReq m) (describeMatcher m) = true := by
  have hlook : lookupId s.timers id = some m := lookupId_eq_of_mem hn hm
  have hstep : stepF env s (.fireTimeout id) = { s with
      waitingRequests := s.waitingRequests.filter fun p => !(p.1 == id),
      timers := s.timers.filter fun p => !(p.1 == id),
      settled := s.settled ++ [(id, Settlement.rej (timeoutMessageReq m))] } := by
    show stepFireTimeout s id = _
    unfold stepFireTimeout
    rw [hlook]
  have e1 : settledFor (stepF env s (.fireTimeout id)) id
      = [(id, Settlement.rej (timeoutMessageReq m))] := by
    rw [hstep]
    show (s.settled ++ [(id, Settlement.rej (timeoutMessageReq m))]).filter
        (fun p => p.1 == id) = _
    rw [List.filter_append, show s.settled.filter (fun p => p.1 == id)
      = settledFor s id from rfl, hs0, List.nil_append]
    simp [List.filter_cons]
  have e2 : id ∈ idsOf (stepF env s (.fireTimeout id)).settled := by
    rw [hstep]
    show id ∈ idsOf (s.settled ++ [(id, Settlement.rej (timeoutMessageReq m))])
    rw [idsOf_append]
    exact List.mem_append.mpr (Or.inr (List.mem_singleton.mpr rfl))
  have e3 : id ∉ idsOf (stepF env s (.fireTimeout id)).waitingRequests := by
    rw [hstep]
    show id ∉ idsOf (s.waitingRequests.filter fun p => !(p.1 == id))
    rw [idsOf_filter_ne]
    intro hmem
    have h2 := (List.mem_filter.mp hmem).2
    simp at h2
  have e4 : id ∉ idsOf (stepF env s (.fireTimeout id)).timers := by
    rw [hstep]
    show id ∉ idsOf (s.timers.filter fun p => !(p.1 == id))
    rw [idsOf_filter_ne]
    intro hmem
    have h2 := (List.mem_filter.mp hmem).2
    simp at h2
  obtain ⟨f1, -, -, -⟩ := settled_stable env id tr2 (stepF env s (.fireTimeout id))
    hok2 e2 e3 e4
  refine ⟨e1, e3, e4, by rw [f1, e1], ?_⟩
  exact strContains_append_self "Timeout waiting for request: " (describeMatcher m)

/-- Witness for C4: the waiter for "q" times out; a request event whose
URL matches "q" arrives afterwards and does not resuscitate it. -/
theorem c4_witness :
    settledFor (stepF envW stC4 (.fireTimeout 0)) 0
      = [(0, Settlement.rej (timeoutMessageReq (.mstr "q")))] ∧
    0 ∉ idsOf (stepF envW stC4 (.fireTimeout 0)).waitingRequests ∧
    0 ∉ idsOf (stepF envW stC4 (.fireTimeout 0)).timers ∧
    settledFor (runTrace envW (stepF envW stC4 (.fireTimeout 0)) [.reqEvent dreqQ 3]) 0
      = [(0, Settlement.rej (timeoutMessageReq (.mstr "q")))] ∧
    strContains (timeoutMessageReq (.mstr "q")) (describeMatcher (.mstr "q")) = true :=
  c4_timeout_cleanup envW stC4 0 (.mstr "q") [.reqEvent dreqQ 3] (by decide)
    (List.mem_singleton.mpr rfl) rfl (by decide)

/-! ## Claim C10 -/

/-- C10: the two waits are asymmetric about already-stored records.  A
`waitForRequest` waiter is settled only by request events arriving
after registration: even when a matching request record is already in
the store at registration time, a stretch of harmless steps (including
response events whose URL would match!) followed by the timeout leaves
it rejected with the timeout error.  `waitForResponse`, by contrast,
polls the store, so its very first check resolves with an
already-stored matching record without any new event. -/
theorem c10_wait_asymmetry :
    (∀ env s id m r mid,
      findRequest s m = some r →
      id ∉ idsOf s.waitingRequests → id ∉ idsOf s.timers → id ∉ idsOf s.settled →
      (idsOf s.waitingRequests).Nodup → (idsOf s.timers).Nodup →
      (∀ st ∈ mid, harmless id m st = true) →
      okTrace env s ([Step.addWaiter id m] ++ mid ++ [Step.fireTimeout id]) = true →
      settledFor (runTrace env s
          ([Step.addWaiter id m] ++ mid ++ [Step.fireTimeout id])) id
        = [(id, Settlement.rej (timeoutMessageReq m))]) ∧
    (∀ m s rest r, findResponse s m = some r →
      waitForResponseRun m (s :: rest) = Except.ok r) := by
  constructor
  · intro env s id m r mid hfind hw ht hs hnW hnT hharm hok
    have hok1 : (okStep s (Step.addWaiter id m)
        && okTrace env (stepF env s (Step.addWaiter id m))
          (mid ++ [Step.fireTimeout id])) = true := hok
    rw [Bool.and_eq_true] at hok1
    have hokm := hok1.2
    rw [okTrace_append env mid [Step.fireTimeout id]
      (stepF env s (Step.addWaiter id m)), Bool.and_eq_true] at hokm
    obtain ⟨hokmid, -⟩ := hokm
    have hw1 : (id, m) ∈ (stepF env s (Step.addWaiter id m)).waitingRequests :=
      List.mem_append.mpr (Or.inr (List.mem_singleton.mpr rfl))
    have ht1 : (id, m) ∈ (stepF env s (Step.addWaiter id m)).timers :=
      List.mem_append.mpr (Or.inr (List.mem_singleton.mpr rfl))
    have hnW1 : (idsOf (stepF env s (Step.addWaiter id m)).waitingRequests).Nodup := by
      show (idsOf (s.waitingRequests ++ [(id, m)])).Nodup
      rw [idsOf_append]
      exact (List.perm_append_singleton id _).nodup_iff.mpr
        (List.nodup_cons.mpr ⟨hw, hnW⟩)
    have hnT1 : (idsOf (stepF env s (Step.addWaiter id m)).timers).Nodup := by
      show (idsOf (s.timers ++ [(id, m)])).Nodup
      rw [idsOf_append]
      exact (List.perm_append_singleton id _).nodup_iff.mpr
        (List.nodup_cons.mpr ⟨ht, hnT⟩)
    have hsf1 : settledFor (stepF env s (Step.addWaiter id m)) id = [] :=
      settledFor_eq_nil hs
    obtain ⟨q1, q2, q3, q4, q5⟩ := pending_stable env id m mid
      (stepF env s (Step.addWaiter id m)) hokmid hharm hw1 ht1 hnW1 hnT1 hsf1
    have hrun : runTrace env s ([Step.addWaiter id m] ++ mid ++ [Step.fireTimeout id])
        = stepF env (runTrace env (stepF env s (Step.addWaiter id m)) mid)
          (.fireTimeout id) := by
      show runTrace env (stepF env s (Step.addWaiter id m))
          (mid ++ [Step.fireTimeout id]) = _
      rw [runTrace_append env mid [Step.fireTimeout id]
        (stepF env s (Step.addWaiter id m))]
      rfl
    rw [hrun]
    have hlook : lookupId (runTrace env (stepF env s (Step.addWaiter id m)) mid).timers
        id = some m := lookupId_eq_of_mem q4 q2
    have hstep : stepF env (runTrace env (stepF env s (Step.addWaiter id m)) mid)
        (.fireTimeout id) =
        { runTrace env (stepF env s (Step.addWaiter id m)) mid with
          waitingRequests := (runTrace env (stepF env s (Step.addWaiter id m))
            mid).waitingRequests.filter fun p => !(p.1 == id),
          timers := (runTrace env (stepF env s (Step.addWaiter id m))
            mid).timers.filter fun p => !(p.1 == id),
          settled := (runTrace env (stepF env s (Step.addWaiter id m)) mid).settled
            ++ [(id, Settlement.rej (timeoutMessageReq m))] } := by
      show stepFireTimeout (runTrace env (stepF env s (Step.addWaiter id m)) mid) id = _
      unfold stepFireTimeout
      rw [hlook]
    rw [hstep]
    show ((runTrace env (stepF env s (Step.addWaiter id m)) mid).settled
        ++ [(id, Settlement.rej (timeoutMessageReq m))]).filter
        (fun p => p.1 == id) = _
    rw [List.filter_append, show (runTrace env (stepF env s (Step.addWaiter id m))
        mid).settled.filter (fun p => p.1 == id)
      = settledFor (runTrace env (stepF env s (Step.addWaiter id m)) mid) id from rfl,
      q5, List.nil_append]
    simp [List.filter_cons]
  · intro m s rest r hfind
    show (match findResponse s m with
      | some rr => Except.ok rr
      | none => waitForResponseRun m rest) = Except.ok r
    rw [hfind]

/-- Witness for C10: the request store already holds a record matching
"api" and a matching response event even arrives while the waiter is
pending, yet the `waitForRequest` waiter still times out; while a
single stored response resolves `waitForResponse` on its first poll. -/
theorem c10_witness :
    settledFor (runTrace envW stC10
        ([Step.addWaiter 0 (.mstr "api")] ++ [Step.respEvent drespW 7]
          ++ [Step.fireTimeout 0])) 0
      = [(0, Settlement.rej (timeoutMessageReq (.mstr "api")))] ∧
    waitForResponseRun (.mstr "api") [stC10R] = Except.ok respRecW :=
  ⟨c10_wait_asymmetry.1 envW stC10 0 (.mstr "api") reqRecW [Step.respEvent drespW 7]
      (by decide) (by decide) (by decide) (by decide) (by decide) (by decide)
      (by decide) (by decide),
    c10_wait_asymmetry.2 (.mstr "api") stC10R [] respRecW (by decide)⟩

end TrackingHttp
